import Mathlib

/-!
# Verification of the pf2e-dailies daily-resolution engine

A shallow embedding of the module's core component (`DailyInterface` and the
`migration` gate) together with proofs of the specification's claims about it.

Modelling conventions:
* DOM elements become plain records holding the fields the code reads
  (`value`, `selectedIndex`, `options`, dataset entries).
* The opaque object store (actor/item persistence) is not modelled as a
  process; instead the *calls* the code issues against it are collected as
  data, so claims about "what gets written" are claims about those calls.
* Localization (`game.i18n.localize`, `localize`) is external per the spec
  and is modelled as the identity on localization keys.
* JS string truthiness (`""`/`undefined` falsy) is made explicit wherever
  the code relies on it.
-/

namespace PF2eDailies

/-! ## Version comparison (external `isNewerVersion` helper)

Modelled from the spec: Foundry's global `isNewerVersion`, which the spec
(§6) describes as "standard semantic-version ordering" on dot-separated
version strings.  Parts are compared numerically, a missing part in the
second argument makes the first newer. -/

/-- JS `String.prototype.trim`: strip whitespace from both ends (defined
structurally so that concrete evaluation reduces in the kernel). -/
def jsTrim (s : String) : String :=
  String.mk ((((s.toList.dropWhile Char.isWhitespace).reverse.dropWhile
    Char.isWhitespace).reverse))

/-- Split a character list on `'.'`. -/
def splitOnDot : List Char → List (List Char)
  | [] => [[]]
  | c :: rest =>
      match splitOnDot rest with
      | [] => [[]]
      | h :: t => if c = '.' then [] :: h :: t else (c :: h) :: t

/-- Numeric value of one dot-separated part (JS `Number("")` is `0`). -/
def partVal (cs : List Char) : Nat :=
  cs.foldl (fun acc c => acc * 10 + (c.toNat - 48)) 0

/-- Modelled from the spec: `isNewerVersion v1 v0` — `true` iff `v1` is a
strictly newer semantic version than `v0`. -/
def isNewerVersionParts : List (List Char) → List (List Char) → Bool
  | [], _ => false
  | _ :: _, [] => true
  | p1 :: r1, p0 :: r0 =>
      if partVal p1 = partVal p0 then isNewerVersionParts r1 r0
      else decide (partVal p0 < partVal p1)

def isNewerVersion (v1 v0 : String) : Bool :=
  isNewerVersionParts (splitOnDot v1.toList) (splitOnDot v0.toList)

/-! ## Migration gate (`migration`, source lines 112–222)

The per-character flag bucket of the module is modelled as an optional
association list: `none` means the actor carries no flags of this module at
all (`hasModuleFlag` false / after `unsetMofuleFlag`), `some kvs` is the
bucket content keyed by flat flag key. -/

/-- The module's current schema tag (`ACTOR_DAILY_SCHEMA`). -/
def ACTOR_DAILY_SCHEMA : String := "3.0.0"

/-- One entry of the static `MIGRATIONS` catalog.  The `messages` machinery
only produces dialog text and never touches persisted state, so it is kept
as an opaque count of message sources. -/
structure MigrationDef where
  schema : String
  reset : Bool
deriving DecidableEq, Repr

/-- The `MIGRATIONS` catalog of the source: one `3.0.0` reset migration. -/
def MIGRATIONS : List MigrationDef := [{ schema := "3.0.0", reset := true }]

/-- Per-character module flag state: `none` when the actor has no flag
namespace for this module. -/
abbrev ActorFlags := Option (List (String × String))

def lookupFlag (fl : List (String × String)) (key : String) : Option String :=
  (fl.find? (fun kv => kv.1 = key)).map (·.2)

/-- Assoc-object assignment `obj[k] = v` (JS object keys are unique, so
replacing the first match is the object semantics). -/
def upsert {α : Type} : List (String × α) → String → α → List (String × α)
  | [], k, v => [(k, v)]
  | kv :: rest, k, v =>
      if kv.1 = k then (k, v) :: rest else kv :: upsert rest k v

/-- `setFlag actor key value`: upsert of one flag key. -/
def setFlagKV (fl : List (String × String)) (key value : String) :
    List (String × String) :=
  upsert fl key value

/-- The migration gate (`migration`, lines 160–222), restricted to its
persisted-state effect.  Returns the actor's flag bucket after the gate
ran.  Dialog display is pure notification and is not part of the state. -/
def migration (flags : ActorFlags) (catalog : List MigrationDef) : ActorFlags :=
  match flags with
  | none => none
  | some fl =>
      let schema := (lookupFlag fl "schema").getD ""
      if !isNewerVersion ACTOR_DAILY_SCHEMA schema then some fl
      else
        let applied := catalog.filter (fun m => isNewerVersion m.schema schema)
        let reset := applied.any (·.reset)
        if reset then none
        else some (setFlagKV fl "schema" ACTOR_DAILY_SCHEMA)

/-- Value of one module flag on an actor, `none` when the actor has no
module flag namespace at all. -/
def flagValue (flags : ActorFlags) (key : String) : Option String :=
  flags.bind (fun fl => lookupFlag fl key)

/-! ## Uniqueness resolver (`#onUniqueChange`, source lines 623–680)

One `<option>` of a unique-tagged `<select>`: its `value`, its optional
`data-unique` datum, its `data-skip-unique` marker and its `disabled`
flag.  A `<select>` is its option list plus the `selectedIndex`. -/

structure SelectOption where
  value : String
  uniqueData : Option String
  skipUnique : Bool
  disabled : Bool
deriving DecidableEq, Repr

structure SelectElement where
  options : List SelectOption
  selectedIndex : Nat
deriving DecidableEq, Repr

/-- Body of the `optionUniqueValue` closure for one option:
`option.dataset.skipUnique === "true" ? undefined : option.dataset.unique ?? option.value`. -/
def nonExemptValue (o : SelectOption) : Option String :=
  if o.skipUnique then none else some (o.uniqueData.getD o.value)

/-- `optionUniqueValue` of the option at `index` (`undefined` out of range). -/
def optionUniqueValue (opts : List SelectOption) (i : Nat) : Option String :=
  opts[i]?.bind nonExemptValue

/-- The `optionExists` closure: `value && uniqueOptions.has(value)` — an
`undefined` or empty unique-value is falsy and never conflicts. -/
def optionExists (opts : List SelectOption) (claimed : List String) (i : Nat) : Bool :=
  match optionUniqueValue opts i with
  | none => false
  | some v => if v = "" then false else claimed.contains v

/-- First `while` loop: probe downward toward index 0 while conflicting. -/
def probeDown (opts : List SelectOption) (claimed : List String) : Nat → Nat
  | 0 => 0
  | i + 1 =>
      if optionExists opts claimed (i + 1) then probeDown opts claimed i else i + 1

/-- Second `while` loop, parameterized by the loop's conflict test:
`while (optionExists() && index < maxIndex) index += 1`, with the remaining
headroom `maxIndex - index` carried as the structurally decreasing fuel
(`fuel = 0` is exactly the loop guard `index < maxIndex` failing). -/
def probeUpGo (conflict : Nat → Bool) : Nat → Nat → Nat
  | 0, i => i
  | fuel + 1, i => if conflict i then probeUpGo conflict fuel (i + 1) else i

/-- Second `while` loop: probe upward toward `maxIndex` while conflicting. -/
def probeUp (opts : List SelectOption) (claimed : List String) (i : Nat) : Nat :=
  probeUpGo (optionExists opts claimed) (opts.length - 1 - i) i

/-- Resolution of one element against the running claimed set (loop body,
lines 630–666): probe down then up; if still conflicting leave the element
untouched (`continue`), otherwise claim the non-falsy unique-value and move
`selectedIndex` to the resolved index. -/
def resolveElement (claimed : List String) (el : SelectElement) :
    SelectElement × List String :=
  let i := probeUp el.options claimed (probeDown el.options claimed el.selectedIndex)
  if optionExists el.options claimed i then (el, claimed)
  else
    let claimed' :=
      match optionUniqueValue el.options i with
      | some v => if v = "" then claimed else claimed ++ [v]
      | none => claimed
    ({ el with selectedIndex := i }, claimed')

/-- First pass over every element of the unique group, in DOM order,
threading the claimed set. -/
def resolvePass (claimed : List String) :
    List SelectElement → List SelectElement × List String
  | [] => ([], claimed)
  | el :: rest =>
      ((resolveElement claimed el).1 ::
          (resolvePass (resolveElement claimed el).2 rest).1,
        (resolvePass (resolveElement claimed el).2 rest).2)

/-- Option-disabling inner loop (lines 672–678), carrying the running
index: every option other than the element's current selection is disabled
iff `uniqueOptions.has(option.dataset.unique ?? option.value)` (note: the
skip-unique marker is *not* consulted here, matching the source). -/
def setDisabledFrom (claimed : List String) (sel : Nat) :
    Nat → List SelectOption → List SelectOption
  | _, [] => []
  | i, o :: rest =>
      (if i = sel then o
       else { o with disabled := claimed.contains (o.uniqueData.getD o.value) }) ::
        setDisabledFrom claimed sel (i + 1) rest

/-- Second pass (lines 668–679) applied to one element. -/
def applyDisabled (claimed : List String) (el : SelectElement) : SelectElement :=
  { el with options := setDisabledFrom claimed el.selectedIndex 0 el.options }

/-- The whole `#onUniqueChange` handler over the group of elements sharing
the unique tag: resolve every element, then recompute disabled flags. -/
def onUniqueChange (els : List SelectElement) : List SelectElement :=
  (resolvePass [] els).1.map (applyDisabled (resolvePass [] els).2)

/-- The non-exempt unique-value the element is currently selected on (the
claim's notion: exempt means skip-unique only). -/
def selNonExempt (el : SelectElement) : Option String :=
  el.options[el.selectedIndex]?.bind nonExemptValue

/-- The unique-value the code would actually claim for an option: as
`nonExemptValue` but additionally the empty string never claims. -/
def claimableValue (o : SelectOption) : Option String :=
  if o.skipUnique then none
  else if o.uniqueData.getD o.value = "" then none
  else some (o.uniqueData.getD o.value)

/-- The claimable unique-value at the element's current selection. -/
def selClaimable (el : SelectElement) : Option String :=
  el.options[el.selectedIndex]?.bind claimableValue

/-- Number of distinct non-exempt option unique-values an element offers
(the claim's `M`, counted per element). -/
def distinctNonExempt (el : SelectElement) : Nat :=
  (el.options.filterMap nonExemptValue).toFinset.card

/-- Number of distinct non-exempt *nonempty* option unique-values an
element offers. -/
def distinctClaimable (el : SelectElement) : Nat :=
  (el.options.filterMap claimableValue).toFinset.card

/-- Selected indices are in range (true of every rendered `<select>` that
has options). -/
abbrev WFGroup (els : List SelectElement) : Prop :=
  ∀ el ∈ els, el.selectedIndex < el.options.length

/-- Two elements are not selected on options carrying the same claimable
unique-value. -/
def DistinctSel (a b : SelectElement) : Prop :=
  match selClaimable a with
  | some v => selClaimable b ≠ some v
  | none => True

instance : DecidableRel DistinctSel := fun a b => by
  unfold DistinctSel
  cases selClaimable a
  · exact isTrue trivial
  · infer_instance

/-- No two elements (in group order) are selected on options carrying the
same claimable unique-value. -/
abbrev ConflictFree (els : List SelectElement) : Prop :=
  els.Pairwise DistinctSel

/-! ## Drop validation for spells (`#validateSpell`, lines 1225–1281, and
`#validateDefault`, lines 1126–1167)

The source returns `false` after raising one specific parameterized
warning and `true` on success; here the outcome is `Option DropWarning`
(`none` = valid, `some w` = rejected with warning `w`).  The compendium
browser's trait predicate (`tab.filterTraits`) and the slugifier
(`game.pf2e.system.sluggify`) are external and taken as parameters. -/

inductive DropWarning
  | wrongTraits
  | rarity
  | source
  | rank
  | categories
  | traditions
deriving DecidableEq, Repr

structure SpellItem where
  traits : List String
  rarity : String
  publication : String
  rank : Nat
  isCantrip : Bool
  isFocusSpell : Bool
  isRitual : Bool
  traditions : List String
deriving DecidableEq, Repr

/-- The selected allow-lists of a spell drop filter (`SpellFilters`). -/
structure SpellFilter where
  traitsSelected : List String
  traitsConjunction : String
  raritySelected : List String
  sourceSelected : List String
  rankSelected : List String
  categorySelected : List String
  traditionsSelected : List String
deriving DecidableEq, Repr

/-- Shared checks of `#validateDefault`: trait conjunction (legacy `hb_`
prefix stripped), rarity allow-list, slugified source allow-list. -/
def validateDefault (filterTraits : List String → List String → String → Bool)
    (sluggify : String → String) (item : SpellItem) (filter : SpellFilter) :
    Option DropWarning :=
  if !filterTraits (item.traits.map (fun t => if t.startsWith "hb_" then t.drop 3 else t))
      filter.traitsSelected filter.traitsConjunction then
    some .wrongTraits
  else if filter.raritySelected ≠ [] ∧ item.rarity ∉ filter.raritySelected then
    some .rarity
  else if filter.sourceSelected ≠ [] ∧
      sluggify (jsTrim item.publication) ∉ filter.sourceSelected then
    some .source
  else none

/-- The mutually-exclusive-with-`spell` category list of a spell item
(lines 1237–1246): `spell` iff neither cantrip nor focus nor ritual. -/
def spellCategories (item : SpellItem) : List String :=
  let isSpell := !item.isCantrip && !item.isFocusSpell && !item.isRitual
  (if isSpell then ["spell"] else []) ++
    (if item.isCantrip then ["cantrip"] else []) ++
    (if item.isFocusSpell then ["focus"] else []) ++
    (if item.isRitual then ["ritual"] else [])

/-- `#validateSpell`: rank allow-list (string-compared), category allow-list
compared as *sorted lists* (`R.equals` after `.sort()`), tradition
allow-list via non-empty intersection, then the shared default checks. -/
def validateSpell (filterTraits : List String → List String → String → Bool)
    (sluggify : String → String) (item : SpellItem) (filter : SpellFilter) :
    Option DropWarning :=
  if filter.rankSelected ≠ [] ∧ toString item.rank ∉ filter.rankSelected then
    some .rank
  else if filter.categorySelected ≠ [] ∧
      List.insertionSort (· ≤ ·) filter.categorySelected ≠
        List.insertionSort (· ≤ ·) (spellCategories item) then
    some .categories
  else if filter.traditionsSelected ≠ [] ∧
      filter.traditionsSelected.filter (fun t => t ∈ item.traditions) = [] then
    some .traditions
  else validateDefault filterTraits sluggify item filter

/-! ## Template builder (`getData` row loop, source lines 406–519)

A row definition as delivered by a daily's `rows` callback, restricted to
the fields the loop reads.  `condition` is `some b` when the daily set a
boolean condition (`typeof row.condition === "boolean"`), `save` is `some
b` when the daily set `row.save` explicitly (`isSavedRow` is `save !==
false`).  Localization is a parameter; the dataset string produced by
`dataToDatasetString` is kept structured as dedicated `ds*` fields. -/

inductive RowOption
  | value (value label : String) (unique : Option String) (skipUnique : Bool)
  | group (name : String)
deriving DecidableEq, Repr

/-- A persisted row value (`DailyRowData`): plain string (select / random /
input), `{selected, input}` (combo) or `{uuid, name}` (drop). -/
inductive DailyRowData
  | string (s : String)
  | combo (selected : String) (input : Bool)
  | drop (uuid name : String)
deriving DecidableEq, Repr

structure RowDef where
  slug : String
  type : String
  label : Option String
  condition : Option Bool
  save : Option Bool
  empty : Bool
  order : Option Nat
  options : List RowOption
  unique : Option String
  message : String
  note : Option String
  dropFilterType : String
deriving Repr

/-- `TEMPLATE_ORDER` (lines 114–122). -/
def TEMPLATE_ORDER : String → Nat
  | "select" => 100
  | "combo" => 80
  | "random" => 60
  | "alert" => 40
  | "input" => 20
  | "notify" => 20
  | _ => 0

inductive TemplateOption
  | opt (value label : String) (unique : Option String) (skipUnique : Bool)
  | groupStart (label : String)
  | groupEnd
deriving DecidableEq, Repr

/-- Option-list processing with the `openedGroups` stack (lines 438–459):
before a new group marker, a still-open group is popped and — if its name
is truthy — closed with a synthetic `groupEnd`; after the list every open
group is closed. -/
def buildOptions (loc : String → String) :
    List String → List RowOption → List TemplateOption
  | opened, [] => opened.map (fun _ => TemplateOption.groupEnd)
  | opened, RowOption.group g :: rest =>
      let closeEnd : List TemplateOption :=
        match opened.getLast? with
        | some s => if s = "" then [] else [.groupEnd]
        | none => []
      closeEnd ++ .groupStart (loc g) :: buildOptions loc (opened.dropLast ++ [g]) rest
  | opened, RowOption.value v l u sk :: rest =>
      .opt v (loc l) u sk :: buildOptions loc opened rest

structure RowTemplate where
  type : String
  label : String
  daily : String
  row : String
  value : Option String
  note : Option String
  selected : Option String
  unique : Option String
  order : Nat
  options : Option (List TemplateOption)
  dsSave : Bool
  dsEmpty : Bool
  dsInput : Option Bool
  dsUuid : Option String
  dsDroptype : Option String
deriving DecidableEq, Repr

/-- The value of an `.opt` template option, `none` for group markers
(`"value" in option`). -/
def templateOptionValue : TemplateOption → Option String
  | .opt v _ _ _ => some v
  | _ => none

def templateOptionLabel : TemplateOption → Option String
  | .opt _ l _ _ => some l
  | _ => none

/-- One iteration of the `getData` row loop (lines 406–519) for the row of
one daily: `none` models `continue` (the row produces no rendered row).
`savedFlags` is the persisted `(daily key, row slug)` row-value lookup. -/
def buildRowTemplate (loc : String → String)
    (savedFlags : String → String → Option DailyRowData)
    (dailyKey : String) (row : RowDef) : Option RowTemplate :=
  if row.condition = some false then none
  else
    let rowLabel := match row.label with | some s => loc s | none => row.slug
    let isSavedRow := row.save ≠ some false
    let getSaved : Option DailyRowData :=
      if isSavedRow then savedFlags dailyKey row.slug else none
    let base : RowTemplate :=
      { type := row.type, row := row.slug, daily := dailyKey, label := rowLabel,
        order := row.order.getD (TEMPLATE_ORDER row.type),
        value := none, selected := none, note := none, unique := none,
        options := none, dsSave := isSavedRow, dsEmpty := row.empty,
        dsInput := none, dsUuid := none, dsDroptype := none }
    if row.type = "select" ∨ row.type = "combo" ∨ row.type = "random" then
      let opts := buildOptions loc [] row.options
      let uniqueTruthy : Bool :=
        match row.unique with | some u => decide (u ≠ "") | none => false
      let base := { base with options := some opts }
      let base :=
        if (row.type = "combo" ∨ row.type = "select") ∧ uniqueTruthy = true ∧
            opts.length > 1 then
          { base with unique := row.unique }
        else base
      if row.type = "combo" then
        let (isInput, selected) : Bool × Option String :=
          match getSaved with
          | some (.combo s i) => (i, some s)
          | _ => (true, none)
        let foundOption :=
          if isInput then none
          else opts.find? (fun o => templateOptionValue o ≠ none ∧
            templateOptionValue o = selected)
        some { base with
          value := some ((if isInput then selected
            else foundOption.bind templateOptionLabel).getD ""),
          selected := some (if isInput then ""
            else ((foundOption.bind templateOptionValue).getD "")),
          dsInput := some isInput }
      else if row.options = [] then none
      else
        some { base with
          selected := some (match getSaved with | some (.string s) => s | _ => "") }
    else if row.type = "drop" then
      let savedDrop : Option (String × String) :=
        match getSaved with | some (.drop u n) => some (u, n) | _ => none
      some { base with
        note := row.note,
        value := some ((savedDrop.map (·.2)).getD ""),
        dsUuid := some ((savedDrop.map (·.1)).getD ""),
        dsDroptype := some row.dropFilterType }
    else if row.type = "alert" then
      some { base with dsSave := false, dsEmpty := false, value := some row.message }
    else if row.type = "input" then
      some { base with
        value := some (match getSaved with | some (.string s) => s | _ => "") }
    else
      some base

/-- The rows rendered for one daily: the loop with `continue` is a
`filterMap` over the daily's row definitions. -/
def buildDailyRows (loc : String → String)
    (savedFlags : String → String → Option DailyRowData)
    (dailyKey : String) (rows : List RowDef) : List RowTemplate :=
  rows.filterMap (buildRowTemplate loc savedFlags dailyKey)

/-! ## Accept processing (`#onAccept` lines 728–755 and `#processDailies`
lines 757–1087)

The DOM row elements present at accept time, restricted to the dataset
fields and values the code reads. -/

structure RowElement where
  dsType : String
  daily : String
  row : String
  save : Bool
  empty : Bool
  uuid : String
  input : Bool
  value : String
  comboSelectValue : String
deriving DecidableEq, Repr

/-- The per-element value extraction of the collection loop (lines
772–796).  `pick` stands for `utils.selectRandomOption` (the external
random sampling done fresh at accept time); elements of any other type —
alert and notify among them — fall through to `continue` (`none`). -/
def rowValueOf (pick : RowElement → String) (el : RowElement) :
    Option DailyRowData :=
  if el.dsType = "drop" then some (.drop el.uuid el.value)
  else if el.dsType = "combo" then
    some (.combo (if el.input then jsTrim el.value else el.comboSelectValue) el.input)
  else if el.dsType = "select" ∨ el.dsType = "input" then
    some (.string (jsTrim el.value))
  else if el.dsType = "random" then some (.string (pick el))
  else none

/-- `dailies[k] ??= …; dailies[k].rows[slug] = v` on a nested assoc. -/
def addDailyRow : List (String × List (String × DailyRowData)) →
    String → String → DailyRowData → List (String × List (String × DailyRowData))
  | [], k, slug, v => [(k, [(slug, v)])]
  | e :: rest, k, slug, v =>
      if e.1 = k then (k, upsert e.2 slug v) :: rest
      else e :: addDailyRow rest k slug v

/-- One iteration of the collection loop (lines 772–811): first component
is the `dailies` accumulator handed to the process callbacks, second the
`flags` accumulator of to-be-persisted row values — fed only when
`data.save === "true"`. -/
def collectStep (pick : RowElement → String)
    (acc : List (String × List (String × DailyRowData)) ×
      List (String × List (String × DailyRowData))) (el : RowElement) :
    List (String × List (String × DailyRowData)) ×
      List (String × List (String × DailyRowData)) :=
  match rowValueOf pick el with
  | none => acc
  | some v =>
      (addDailyRow acc.1 el.daily el.row v,
       if el.save then addDailyRow acc.2 el.daily el.row v else acc.2)

def collectRows (pick : RowElement → String) (els : List RowElement) :
    List (String × List (String × DailyRowData)) ×
      List (String × List (String × DailyRowData)) :=
  els.foldl (collectStep pick) ([], [])

/-! ### The processing context

Item sources and embedded items are path→value maps plus this module's
flag bucket; `getProperty`/`setFlagProperty` of the source read and write
them. -/

structure ItemSource where
  type : String
  props : List (String × String)
  flags : List (String × String)
deriving DecidableEq, Repr

def getProp (src : ItemSource) (path : String) : Option String :=
  lookupFlag src.props path

def setProp (src : ItemSource) (path value : String) : ItemSource :=
  { src with props := upsert src.props path value }

def getFlagProp (src : ItemSource) (key : String) : Option String :=
  lookupFlag src.flags key

def setFlagProp (src : ItemSource) (key value : String) : ItemSource :=
  { src with flags := upsert src.flags key value }

/-- JS truthiness of a possibly-absent string property. -/
def truthy : Option String → Bool
  | none => false
  | some s => !(s = "")

/-- A rule element: its payload plus whether it carries this module's own
tag (`MODULE.id in rule`). -/
structure RuleElement where
  ownFlag : Bool
  data : String
deriving DecidableEq, Repr

structure DailyMessage where
  label : Option String
  uuid : Option String
  selected : Option String
  random : Bool
deriving DecidableEq, Repr

structure MessageGroup where
  label : Option String
  order : Int
  messages : List DailyMessage
deriving DecidableEq, Repr

/-- A pending item-update fragment value. -/
inductive FragValue
  | str (s : String)
  | rules (rs : List RuleElement)
  | grantLink (id : String) (onDelete : String)
deriving DecidableEq, Repr

/-- The effect calls a daily's `process` callback can make against its
context (the helper closures of lines 862–917).  `removeRule` carries the
signature predicate applied to a rule's payload. -/
inductive EffectCmd
  | addMessage (group : String) (msg : DailyMessage)
  | addGroup (name label : String) (order : Int)
  | addRaw (message : String) (order : Int)
  | updateItem (id : String) (frags : List (String × FragValue))
  | addItem (source : ItemSource)
  | addFeat (source : ItemSource) (parentFeatId : Option String)
  | deleteItem (id : String)
  | addRule (itemId : String) (ruleData : String)
  | removeRule (itemId : String) (signature : String → Bool)
  | setExtraFlags (data : List (String × String))

/-- The shared accumulators of one accept cycle (the Processing Context). -/
structure ProcessState where
  deletedItems : List String
  addedItems : List ItemSource
  itemsRules : List (String × List RuleElement)
  updatedItems : List (String × List (String × FragValue))
  rawMessages : List (String × Int)
  messageGroups : List (String × MessageGroup)
  extraFlags : List (String × String)

/-- The six default message groups with their priorities (lines 821–828). -/
def initialMessageGroups : List (String × MessageGroup) :=
  [("languages", ⟨none, 80, []⟩), ("skills", ⟨none, 70, []⟩),
   ("resistances", ⟨none, 60, []⟩), ("feats", ⟨none, 50, []⟩),
   ("spells", ⟨none, 40, []⟩), ("scrolls", ⟨none, 30, []⟩)]

def initialState : ProcessState :=
  { deletedItems := [], addedItems := [], itemsRules := [], updatedItems := [],
    rawMessages := [], messageGroups := initialMessageGroups, extraFlags := [] }

/-- Modelled from the spec: `createUpdateCollection` (repo file
`src/api.ts`, not included in the sources) — per-item update fragments are
merged, not overwritten, per item id; colliding field paths are
last-write-wins (§3, §5). -/
def mergeUpdateFrags : List (String × List (String × FragValue)) →
    String → List (String × FragValue) → List (String × List (String × FragValue))
  | [], id, frags => [(id, frags)]
  | e :: rest, id, frags =>
      if e.1 = id then
        (id, frags.foldl (fun acc pv => upsert acc pv.1 pv.2) e.2) :: rest
      else e :: mergeUpdateFrags rest id frags

/-- `getRules` (lines 830–848): lazily clone the item's source rules with
this module's previously-added rules stripped. -/
def getRulesSt (itemRules : String → List RuleElement) (st : ProcessState)
    (id : String) : List RuleElement × ProcessState :=
  match st.itemsRules.find? (fun e => e.1 = id) with
  | some e => (e.2, st)
  | none =>
      let rules := (itemRules id).filter (fun r => !r.ownFlag)
      (rules, { st with itemsRules := st.itemsRules ++ [(id, rules)] })

/-- `messages.add` (lines 863–866): `messageGroups[group] ??= {order: 0,
messages: []}` then push the message. -/
def pushGroupMessage : List (String × MessageGroup) → String → DailyMessage →
    List (String × MessageGroup)
  | [], group, msg => [(group, ⟨none, 0, [msg]⟩)]
  | e :: rest, group, msg =>
      if e.1 = group then
        (group, { e.2 with messages := e.2.messages ++ [msg] }) :: rest
      else e :: pushGroupMessage rest group msg

/-- `messages.addGroup` (lines 867–878): an existing group keeps its order
and at most gains a label (`??=`); an unknown one is created. -/
def declareGroup : List (String × MessageGroup) → String → String → Int →
    List (String × MessageGroup)
  | [], name, label, order => [(name, ⟨some label, order, []⟩)]
  | e :: rest, name, label, order =>
      if e.1 = name then
        (name, { e.2 with label := some (e.2.label.getD label) }) :: rest
      else e :: declareGroup rest name label order

/-- One helper-closure call applied to the shared state (lines 862–917). -/
def applyCmd (itemRules : String → List RuleElement) (st : ProcessState) :
    EffectCmd → ProcessState
  | .addMessage group msg =>
      { st with messageGroups := pushGroupMessage st.messageGroups group msg }
  | .addGroup name label order =>
      { st with messageGroups := declareGroup st.messageGroups name label order }
  | .addRaw message order =>
      { st with rawMessages := st.rawMessages ++ [(message, order)] }
  | .updateItem id frags =>
      { st with updatedItems := mergeUpdateFrags st.updatedItems id frags }
  | .addItem source =>
      { st with addedItems := st.addedItems ++ [source] }
  | .addFeat source parentFeatId =>
      let source :=
        match parentFeatId with
        | some pid =>
            setFlagProp (setProp (setProp source "flags.pf2e.grantedBy.id" pid)
              "flags.pf2e.grantedBy.onDelete" "cascade") "grantedBy" pid
        | none => source
      { st with addedItems := st.addedItems ++ [source] }
  | .deleteItem id =>
      { st with deletedItems := st.deletedItems ++ [id] }
  | .addRule itemId ruleData =>
      let rules := (getRulesSt itemRules st itemId).1
      let st1 := (getRulesSt itemRules st itemId).2
      { st1 with
          itemsRules := upsert st1.itemsRules itemId (rules ++ [⟨true, ruleData⟩]) }
  | .removeRule itemId signature =>
      let rules := (getRulesSt itemRules st itemId).1
      let st1 := (getRulesSt itemRules st itemId).2
      { st1 with
          itemsRules :=
            upsert st1.itemsRules itemId (rules.filter (fun r => !signature r.data)) }
  | .setExtraFlags data =>
      { st with extraFlags :=
          data.foldl (fun acc kv => upsert acc kv.1 kv.2) st.extraFlags }

/-- A daily's `process` callback outcome on its resolved rows: the effect
calls it makes, or the exception it throws. -/
abbrev ProcessFn := List (String × DailyRowData) → Except String (List EffectCmd)

/-- One daily inside the `Promise.all` (lines 850–925), with its
`try`/`catch`: a thrown error adds the daily's key to the error log
(`console.error` with the key, line 922) and leaves the shared state
untouched by that daily. -/
def runStep (procOf : String → ProcessFn) (itemRules : String → List RuleElement)
    (acc : ProcessState × List String)
    (d : String × List (String × DailyRowData)) : ProcessState × List String :=
  match procOf d.1 d.2 with
  | .ok cmds => (cmds.foldl (applyCmd itemRules) acc.1, acc.2)
  | .error _ => (acc.1, acc.2 ++ [d.1])

/-- The whole callback pass: every daily runs, errors isolated per daily. -/
def runCallbacks (procOf : String → ProcessFn)
    (itemRules : String → List RuleElement)
    (collected : List (String × List (String × DailyRowData))) :
    ProcessState × List String :=
  collected.foldl (runStep procOf itemRules) (initialState, [])

/-! ### Post-pass reconciliation (lines 927–1034) -/

/-- The tagging loop over `addedItems` (lines 930–943), kept verbatim from
the source: every source not already temporary gets the `temporary` module
flag, and a source is tagged with the shared `entryIdentifier` (and flips
`hasOrphanSpells`) when it is a spell, the property at the literal source
path `"system.localtion.value"` (sic, line 937) is falsy, and it has no
`identifier` module flag. -/
def tagAddedItems (entryIdentifier : String) (addedItems : List ItemSource) :
    List ItemSource × Bool :=
  addedItems.foldl
    (fun acc source =>
      let source :=
        if !truthy (getProp source "system.temporary") then
          setFlagProp source "temporary" "true"
        else source
      if source.type = "spell" && !truthy (getProp source "system.localtion.value")
          && !truthy (getFlagProp source "identifier") then
        (acc.1 ++ [setFlagProp source "identifier" entryIdentifier], true)
      else (acc.1 ++ [source], acc.2))
    ([], false)

structure Statistic where
  mod : Int
  attr : String
  rank : Option Nat
  slug : String
deriving DecidableEq, Repr

/-- Result of `getHighestSpellcastingStatistic` (external helper). -/
structure SpellcastingEntryStat where
  tradition : String
  statistic : Statistic
deriving DecidableEq, Repr

/-- Modelled from the spec: `utils.createSpellcastingEntrySource` (repo
file `src/utils.ts`, not included in the sources) — builds an "innate"
spellcasting entry item source carrying the given identifier as a module
flag (§4.4 step (3)). -/
def createSpellcastingEntrySource (name identifier category tradition
    attrName : String) (proficiencyRank : Nat)
    (proficiencySlug : Option String) : ItemSource :=
  { type := "spellcastingEntry",
    props := [("name", name), ("system.prepared.value", category),
      ("system.tradition.value", tradition), ("system.ability.value", attrName),
      ("system.proficiency.value", toString proficiencyRank)] ++
      (match proficiencySlug with
       | some s => [("system.proficiency.slug", s)]
       | none => []),
    flags := [("identifier", identifier)] }

/-- Synthesis of the single orphan spellcasting entry (lines 945–972):
when orphan spells exist, pick the higher of the best existing
spellcasting statistic and the best synthetic statistic and append exactly
one new "innate" entry source tagged with the shared identifier;
with no usable statistic at all, nothing is appended. -/
def synthesizeEntry (entryIdentifier : String)
    (highestEntry : Option SpellcastingEntryStat)
    (highestSynthetic : Option Statistic) (hasOrphanSpells : Bool)
    (addedItems : List ItemSource) : List ItemSource :=
  if !hasOrphanSpells then addedItems
  else
    let choice : Option (Option String × Statistic) :=
      match highestEntry, highestSynthetic with
      | some he, some hs =>
          if hs.mod ≤ he.statistic.mod then some (some he.tradition, he.statistic)
          else some (none, hs)
      | some he, none => some (some he.tradition, he.statistic)
      | none, some hs => some (none, hs)
      | none, none => none
    match choice with
    | none => addedItems
    | some (tradition, statistic) =>
        let isSynthetic : Bool :=
          match highestSynthetic with
          | some hs => decide (statistic = hs)
          | none => false
        let source := createSpellcastingEntrySource "spellEntry.name"
          entryIdentifier "innate" (tradition.getD "arcane") statistic.attr
          (statistic.rank.getD 1) (if isSynthetic then some statistic.slug else none)
        addedItems ++ [setFlagProp source "temporary" "true"]

/-- `actor.createEmbeddedDocuments` is external; the store assigns each
created source a fresh id, modelled deterministically by position. -/
def assignIds (addedItems : List ItemSource) : List (String × ItemSource) :=
  addedItems.enum.map (fun p => ("new-item-" ++ toString p.1, p.2))

/-- The post-create loop (lines 981–1013): feat grant-links and relocation
of every identifier-sharing spell into each created spellcasting entry,
with its heightened rank taken from the spell's `rank` flag. -/
def postCreateUpdates (sluggify : String → String)
    (created : List (String × ItemSource))
    (upd0 : List (String × List (String × FragValue))) :
    List (String × List (String × FragValue)) :=
  created.foldl
    (fun upd idItem =>
      let (id, item) := idItem
      if item.type = "feat" then
        match getFlagProp item "grantedBy" with
        | some parentId =>
            mergeUpdateFrags upd parentId
              [("flags.pf2e.itemGrants." ++ sluggify ((getProp item "name").getD ""),
                .grantLink id "detach")]
        | none => upd
      else if item.type = "spellcastingEntry" then
        match getFlagProp item "identifier" with
        | none => upd
        | some identifier =>
            (created.filter (fun sp =>
                sp.2.type = "spell" &&
                  getFlagProp sp.2 "identifier" == some identifier)).foldl
              (fun u sp =>
                mergeUpdateFrags u sp.1
                  ([("system.location.value", .str id)] ++
                    (match getFlagProp sp.2 "rank" with
                     | some r => [("system.location.heightenedLevel", .str r)]
                     | none => [])))
              upd
      else upd)
    upd0

/-! ### Chat summary composition (lines 1036–1086) -/

/-- A chat section with its numeric priority; the preface uses `⊤`
(`Infinity`). -/
structure ChatGroup where
  message : String
  order : WithTop Int
deriving DecidableEq

/-- The comparator `(a, b) => b.order - a.order`: `a` sorts no later than
`b` iff `b.order ≤ a.order`. -/
def chatRel (a b : ChatGroup) : Prop := b.order ≤ a.order

instance : DecidableRel chatRel :=
  fun a b => inferInstanceAs (Decidable (b.order ≤ a.order))

instance : IsTotal ChatGroup chatRel := ⟨fun a b => le_total b.order a.order⟩

instance : IsTrans ChatGroup chatRel :=
  ⟨fun _ _ _ h1 h2 => le_trans h2 h1⟩

/-- `createChatLink` (external utility); the label decoration around the
uuid is immaterial here. -/
def createChatLink (uuid label : String) : String :=
  "@UUID[" ++ uuid ++ "]" ++ label

/-- Rendering of one queued message entry (lines 1051–1071). -/
def renderMessage (m : DailyMessage) : String :=
  let label := jsTrim (m.label.getD "")
  let head :=
    if truthy m.uuid then createChatLink (m.uuid.getD "") label
    else if label ≠ "" then " " ++ label
    else ""
  let sel :=
    if truthy m.selected then
      "<i class=\"fa-solid fa-caret-right\"></i>" ++ (m.selected.getD "")
    else ""
  let rnd := if m.random then "<i class=\"fa-solid fa-dice-d20\"></i>" else ""
  "<p>" ++ head ++ sel ++ rnd ++ "</p>"

/-- Rendering of one non-empty named group (lines 1042–1073): localized
label line then its messages. -/
def renderGroup (loc : String → String) (type : String) (g : MessageGroup) :
    String :=
  let groupLabel := match g.label with | some l => loc l | none => loc type
  "<p><strong>" ++ groupLabel ++ "</strong></p>" ++
    String.join (g.messages.map renderMessage)

/-- The unsorted chat sections (lines 1036–1074): the raw messages first,
then each non-empty named group. -/
def chatSections (loc : String → String) (rawMessages : List (String × Int))
    (groups : List (String × MessageGroup)) : List ChatGroup :=
  rawMessages.map
    (fun mo => ChatGroup.mk ("<p>" ++ mo.1 ++ "</p>") (mo.2 : WithTop Int)) ++
  groups.filterMap
    (fun tg =>
      if tg.2.messages = [] then none
      else some (ChatGroup.mk (renderGroup loc tg.1 tg.2) (tg.2.order : WithTop Int)))

/-- Composition and ordering of the chat summary (lines 1036–1081): the
changes / no-changes preface unshifted with unbounded priority in front of
the sections, then the stable descending sort by priority. -/
def composeChat (loc : String → String) (rawMessages : List (String × Int))
    (groups : List (String × MessageGroup)) : List ChatGroup :=
  List.insertionSort chatRel
    (ChatGroup.mk
        (loc (if chatSections loc rawMessages groups ≠ [] then "message.changes"
          else "message.noChanges")) ⊤ ::
      chatSections loc rawMessages groups)

/-- The posted summary content: the sections joined with rules. -/
def chatContent (sections : List ChatGroup) : String :=
  String.intercalate "<hr />" (sections.map (·.message))

/-! ### The commit -/

/-- The flag update payload of line 1028–1034. -/
structure FlagPayload where
  rowValues : List (String × List (String × DailyRowData))
  extra : List (String × String)
  rested : Bool
  schema : String
  addedItems : List String
deriving DecidableEq, Repr

/-- The calls issued against the external object store and chat sink. -/
inductive StoreCall
  | createItems (sources : List ItemSource)
  | updateItemsCall (updates : List (String × List (String × FragValue)))
  | deleteItemsCall (ids : List String)
  | updateActorFlags (payload : FlagPayload)
  | createChatMessage (content : String)

/-- Everything `#processDailies` needs from outside the shared state. -/
structure AcceptContext where
  pick : RowElement → String
  procOf : String → ProcessFn
  itemRules : String → List RuleElement
  entryIdentifier : String
  highestEntry : Option SpellcastingEntryStat
  highestSynthetic : Option Statistic
  loc : String → String
  sluggify : String → String

/-- `#processDailies` (lines 757–1087): collect row values, run every
daily's callback with errors isolated, reconcile (temporary/orphan
tagging, entry synthesis, creation, grant links, spell relocation, rule
flush), then issue the guarded store calls — batch create, batch update,
batch delete, the single flag update, and the chat summary — in order.
Returns the store calls together with the error log. -/
def processDailies (ctx : AcceptContext) (els : List RowElement) :
    List StoreCall × List String :=
  let collected := collectRows ctx.pick els
  let st := (runCallbacks ctx.procOf ctx.itemRules collected.1).1
  let log := (runCallbacks ctx.procOf ctx.itemRules collected.1).2
  let tagged := (tagAddedItems ctx.entryIdentifier st.addedItems).1
  let hasOrphanSpells := (tagAddedItems ctx.entryIdentifier st.addedItems).2
  let addedItems := synthesizeEntry ctx.entryIdentifier ctx.highestEntry
    ctx.highestSynthetic hasOrphanSpells tagged
  let created := if addedItems ≠ [] then assignIds addedItems else []
  let addedItemIds := created.map (·.1)
  let upd :=
    if addedItems ≠ [] then postCreateUpdates ctx.sluggify created st.updatedItems
    else st.updatedItems
  let upd := st.itemsRules.foldl
    (fun u e => mergeUpdateFrags u e.1 [("system.rules", .rules e.2)]) upd
  let calls :=
    (if addedItems ≠ [] then [StoreCall.createItems addedItems] else []) ++
    (if upd ≠ [] then [StoreCall.updateItemsCall upd] else []) ++
    (if st.deletedItems ≠ [] then [StoreCall.deleteItemsCall st.deletedItems] else []) ++
    [StoreCall.updateActorFlags
      ⟨collected.2, st.extraFlags, false, ACTOR_DAILY_SCHEMA, addedItemIds⟩,
     StoreCall.createChatMessage
       (chatContent (composeChat ctx.loc st.rawMessages st.messageGroups))]
  (calls, log)

/-- Outcome of pressing accept. -/
inductive AcceptOutcome
  | blocked (highlighted : List (String × String))
  | processed (calls : List StoreCall) (errorLog : List String)

/-- `#onAccept` (lines 728–755): all `[data-empty='false']` elements whose
trimmed value is blank block acceptance — a warning is shown, the offending
`(daily, row)` labels are highlighted and nothing else runs; otherwise the
form is locked and `#processDailies` runs. -/
def onAccept (ctx : AcceptContext) (els : List RowElement) : AcceptOutcome :=
  if els.filter (fun el => !el.empty && jsTrim el.value = "") ≠ [] then
    .blocked ((els.filter (fun el => !el.empty && jsTrim el.value = "")).map
      (fun el => (el.daily, el.row)))
  else
    .processed (processDailies ctx els).1 (processDailies ctx els).2

/-- The store calls an accept outcome performs (a blocked accept performs
none). -/
def storeCalls : AcceptOutcome → List StoreCall
  | .blocked _ => []
  | .processed calls _ => calls

/-- The value persisted under `(daily key, row slug)` in a row-value map. -/
def lookupRowValue (rv : List (String × List (String × DailyRowData)))
    (d r : String) : Option DailyRowData :=
  match rv.find? (fun e => e.1 = d) with
  | none => none
  | some e => (e.2.find? (fun e2 => e2.1 = r)).map (·.2)

/-- The flag-update payloads among a list of store calls. -/
def flagPayloads (calls : List StoreCall) : List FlagPayload :=
  calls.filterMap (fun c =>
    match c with | .updateActorFlags p => some p | _ => none)

/-! # Theorems -/

/-- C3 counterexample: a character stored at schema `"2.0.0"` against the
`"3.0.0"` reset migration ends the gate with *every* module flag removed —
the schema flag is not set to `"3.0.0"` as the claim asserts (the reset
branch runs `unsetMofuleFlag` and never stamps the schema, lines 201–206). -/
theorem c3_counterexample :
    migration (some [("schema", "2.0.0"), ("someDaily.someRow", "x")]) MIGRATIONS = none ∧
    flagValue (migration (some [("schema", "2.0.0"), ("someDaily.someRow", "x")]) MIGRATIONS)
      "schema" ≠ some "3.0.0" := by
  constructor
  · rfl
  · decide

/-- C3 (amended): a character stored at `"2.0.0"` against the catalog's
`"3.0.0"` reset migration ends the gate with all of the module's persisted
flags cleared (the schema flag included — no schema is stamped on the reset
path); a character already at `"3.0.0"` is left untouched. -/
theorem c3_migration_gate (fl : List (String × String)) :
    (lookupFlag fl "schema" = some "2.0.0" →
      migration (some fl) MIGRATIONS = none) ∧
    (lookupFlag fl "schema" = some "3.0.0" →
      migration (some fl) MIGRATIONS = some fl) := by
  constructor <;> intro h <;>
    simp only [migration, h, Option.getD_some] <;>
    norm_num [show isNewerVersion ACTOR_DAILY_SCHEMA "2.0.0" = true from rfl,
      show isNewerVersion ACTOR_DAILY_SCHEMA "3.0.0" = false from rfl,
      show isNewerVersion "3.0.0" "2.0.0" = true from rfl,
      MIGRATIONS]

/-- C3 witness: both branches of `c3_migration_gate` at concrete flag
buckets. -/
theorem c3_migration_gate_witness :
    migration (some [("schema", "2.0.0"), ("k", "v")]) MIGRATIONS = none ∧
    migration (some [("schema", "3.0.0"), ("k", "v")]) MIGRATIONS =
      some [("schema", "3.0.0"), ("k", "v")] :=
  ⟨(c3_migration_gate _).1 rfl, (c3_migration_gate _).2 rfl⟩

/-- C10: a select- or random-type row whose option list is empty produces
no rendered row at all (regardless of its condition), while a combo row
whose condition is not `false` always produces one, empty options or not
(lines 469–487: the combo branch precedes the `!row.options.length`
`continue`). -/
theorem c10_empty_option_rows_skipped (loc : String → String)
    (savedFlags : String → String → Option DailyRowData) (dailyKey : String)
    (row : RowDef) :
    ((row.type = "select" ∨ row.type = "random") → row.options = [] →
      buildRowTemplate loc savedFlags dailyKey row = none) ∧
    (row.type = "combo" → row.condition ≠ some false →
      (buildRowTemplate loc savedFlags dailyKey row).isSome = true) := by
  constructor
  · rintro (h | h) hopts <;>
      (simp only [buildRowTemplate, h, hopts]; split <;> simp [buildOptions])
  · intro h hcond
    simp [buildRowTemplate, h, hcond]

/-- C10 witness: an optionless select row renders nothing, an optionless
combo row still renders. -/
theorem c10_witness :
    buildRowTemplate id (fun _ _ => none) "d"
      ⟨"r", "select", none, none, none, false, none, [], none, "", none, "feat"⟩ = none ∧
    (buildRowTemplate id (fun _ _ => none) "d"
      ⟨"r", "combo", none, none, none, false, none, [], none, "", none, "feat"⟩).isSome = true :=
  ⟨(c10_empty_option_rows_skipped id _ "d" _).1 (Or.inl rfl) rfl,
   (c10_empty_option_rows_skipped id _ "d" _).2 rfl (by decide)⟩

/-- The shared default checks can only reject with a trait, rarity or
source warning — never a traditions one. -/
theorem validateDefault_ne_traditions (ft : List String → List String → String → Bool)
    (sg : String → String) (item : SpellItem) (filter : SpellFilter) :
    validateDefault ft sg item filter ≠ some DropWarning.traditions := by
  unfold validateDefault
  split_ifs <;> simp

/-- C7: with a non-empty category allow-list, spell drop validation
succeeds only when that allow-list equals the item's computed category set
(spell / cantrip / focus / ritual, `spell` iff none of the other three);
a non-empty intersection with a differing set is rejected with the
category warning (when the preceding rank check passes), while the
tradition allow-list never rejects as long as some tradition intersects. -/
theorem c7_spell_filter_semantics (ft : List String → List String → String → Bool)
    (sg : String → String) (item : SpellItem) (filter : SpellFilter) :
    (validateSpell ft sg item filter = none → filter.categorySelected ≠ [] →
      ∀ c, c ∈ filter.categorySelected ↔ c ∈ spellCategories item) ∧
    (filter.categorySelected ≠ [] →
      (∃ c, c ∈ filter.categorySelected ∧ c ∈ spellCategories item) →
      (∃ c, (c ∈ filter.categorySelected ∧ c ∉ spellCategories item) ∨
        (c ∈ spellCategories item ∧ c ∉ filter.categorySelected)) →
      (filter.rankSelected = [] ∨ toString item.rank ∈ filter.rankSelected) →
      validateSpell ft sg item filter = some DropWarning.categories) ∧
    ((∃ t, t ∈ filter.traditionsSelected ∧ t ∈ item.traditions) →
      validateSpell ft sg item filter ≠ some DropWarning.traditions) := by
  refine ⟨?_, ?_, ?_⟩
  · intro hnone hne c
    unfold validateSpell at hnone
    split_ifs at hnone with h1 h2 h3
    · have hs : List.insertionSort (· ≤ ·) filter.categorySelected =
          List.insertionSort (· ≤ ·) (spellCategories item) := by
        by_contra hne2
        exact h2 ⟨hne, hne2⟩
      have hperm : filter.categorySelected.Perm (spellCategories item) :=
        ((List.perm_insertionSort (· ≤ ·) filter.categorySelected).symm).trans
          (hs ▸ List.perm_insertionSort (· ≤ ·) (spellCategories item))
      exact hperm.mem_iff
  · rintro hne hint ⟨c, hc⟩ hrank
    have hsne : List.insertionSort (· ≤ ·) filter.categorySelected ≠
        List.insertionSort (· ≤ ·) (spellCategories item) := by
      intro hs
      have hperm : filter.categorySelected.Perm (spellCategories item) :=
        ((List.perm_insertionSort (· ≤ ·) filter.categorySelected).symm).trans
          (hs ▸ List.perm_insertionSort (· ≤ ·) (spellCategories item))
      rcases hc with ⟨hg1, hg2⟩ | ⟨hg1, hg2⟩
      · exact hg2 (hperm.mem_iff.mp hg1)
      · exact hg2 (hperm.mem_iff.mpr hg1)
    have hrank' : ¬(filter.rankSelected ≠ [] ∧ toString item.rank ∉ filter.rankSelected) := by
      rcases hrank with h | h <;> simp [h]
    unfold validateSpell
    rw [if_neg hrank', if_pos ⟨hne, hsne⟩]
  · rintro ⟨t, ht1, ht2⟩
    have hfil : filter.traditionsSelected.filter (fun t => t ∈ item.traditions) ≠ [] := by
      have hmem : t ∈ filter.traditionsSelected.filter (fun t => t ∈ item.traditions) := by
        simp only [List.mem_filter]
        exact ⟨ht1, by simpa using ht2⟩
      exact List.ne_nil_of_mem hmem
    unfold validateSpell
    split_ifs with h1 h2 h3
    · simp
    · simp
    · exact absurd h3.2 hfil
    · exact validateDefault_ne_traditions ft sg item filter

/-- C7 witness: a cantrip against an exact-set filter, a strictly larger
intersecting filter, and an intersecting tradition list. -/
theorem c7_witness :
    validateSpell (fun _ _ _ => true) id
      ⟨[], "common", "", 3, true, false, false, ["arcane"]⟩
      ⟨[], "and", [], [], [], ["cantrip", "focus"], []⟩ = some DropWarning.categories ∧
    validateSpell (fun _ _ _ => true) id
      ⟨[], "common", "", 3, true, false, false, ["arcane"]⟩
      ⟨[], "and", [], [], [], ["cantrip"], ["arcane"]⟩ ≠ some DropWarning.traditions ∧
    ("cantrip" ∈ SpellFilter.categorySelected ⟨[], "and", [], [], [], ["cantrip"], ["arcane"]⟩ ↔
      "cantrip" ∈ spellCategories ⟨[], "common", "", 3, true, false, false, ["arcane"]⟩) :=
  ⟨(c7_spell_filter_semantics _ _ _ _).2.1 (by decide)
      ⟨"cantrip", by decide, by decide⟩ ⟨"focus", Or.inl ⟨by decide, by decide⟩⟩ (Or.inl rfl),
   (c7_spell_filter_semantics _ _ _ _).2.2 ⟨"arcane", by decide, by decide⟩,
   (c7_spell_filter_semantics (fun _ _ _ => true) id
      ⟨[], "common", "", 3, true, false, false, ["arcane"]⟩
      ⟨[], "and", [], [], [], ["cantrip"], ["arcane"]⟩).1 rfl (by decide) "cantrip"⟩

/-- C8: whenever some row not marked empty-exempt has a blank (trimmed)
value, accept is blocked: the outcome is the warned/highlighted state with
the offending `(daily, row)` among the highlights, and not a single store
call — no item creation, update, deletion, flag write or chat message —
is performed. -/
theorem c8_blank_blocks_accept (ctx : AcceptContext) (els : List RowElement)
    (el : RowElement) (hmem : el ∈ els) (hexempt : el.empty = false)
    (hblank : jsTrim el.value = "") :
    (∃ hl, onAccept ctx els = .blocked hl ∧ (el.daily, el.row) ∈ hl) ∧
    storeCalls (onAccept ctx els) = [] := by
  have hfil : el ∈ els.filter (fun e => !e.empty && jsTrim e.value = "") := by
    rw [List.mem_filter]
    exact ⟨hmem, by simp [hexempt, hblank]⟩
  have hne : els.filter (fun e => !e.empty && jsTrim e.value = "") ≠ [] :=
    List.ne_nil_of_mem hfil
  unfold onAccept
  rw [if_pos hne]
  exact ⟨⟨_, rfl, List.mem_map.mpr ⟨el, hfil, rfl⟩⟩, rfl⟩

/-- C8 witness: one required select row with no selection blocks the
accept with zero store calls. -/
theorem c8_witness :
    (∃ hl, onAccept ⟨fun _ => "", fun _ _ => Except.ok [], fun _ => [], "id",
        none, none, id, id⟩ [⟨"select", "d", "r", true, false, "", false, "", ""⟩] =
        .blocked hl ∧ ("d", "r") ∈ hl) ∧
    storeCalls (onAccept ⟨fun _ => "", fun _ _ => Except.ok [], fun _ => [], "id",
        none, none, id, id⟩ [⟨"select", "d", "r", true, false, "", false, "", ""⟩]) = [] :=
  c8_blank_blocks_accept _ _ ⟨"select", "d", "r", true, false, "", false, "", ""⟩
    (List.mem_singleton.mpr rfl) rfl rfl

/-- An element of maximal priority is inserted at the head. -/
theorem orderedInsert_top (a : ChatGroup) (l : List ChatGroup) (ha : a.order = ⊤) :
    List.orderedInsert chatRel a l = a :: l := by
  cases l with
  | nil => rfl
  | cons b t =>
      rw [List.orderedInsert, if_pos]
      show b.order ≤ a.order
      rw [ha]
      exact le_top

/-- C9: the posted chat summary always starts with the preface — "changes"
exactly when any other section exists, else "no changes" — carrying
unbounded priority, and the whole list is sorted by descending numeric
priority; in particular groups `{feats: 50, skills: 70}` with one raw
message (priority 1) come out as skills, then feats, then the raw
message, after the preface. -/
theorem c9_chat_summary_ordering (loc : String → String)
    (raws : List (String × Int)) (groups : List (String × MessageGroup)) :
    (∃ rest, composeChat loc raws groups =
      ChatGroup.mk (loc (if rest = [] then "message.noChanges" else "message.changes")) ⊤ :: rest) ∧
    List.Sorted chatRel (composeChat loc raws groups) ∧
    composeChat id [("raw", 1)]
      [("feats", ⟨none, 50, [⟨some "f", none, none, false⟩]⟩),
       ("skills", ⟨none, 70, [⟨some "s", none, none, false⟩]⟩)] =
      [⟨"message.changes", ⊤⟩,
       ⟨"<p><strong>skills</strong></p><p> s</p>", ((70 : Int) : WithTop Int)⟩,
       ⟨"<p><strong>feats</strong></p><p> f</p>", ((50 : Int) : WithTop Int)⟩,
       ⟨"<p>raw</p>", ((1 : Int) : WithTop Int)⟩] := by
  refine ⟨?_, ?_, ?_⟩
  · have hnil : (List.insertionSort chatRel (chatSections loc raws groups) = []) ↔
        chatSections loc raws groups = [] := by
      constructor
      · intro h
        have hp := List.perm_insertionSort chatRel (chatSections loc raws groups)
        rw [h] at hp
        exact hp.symm.eq_nil
      · intro h
        rw [h]
        rfl
    refine ⟨List.insertionSort chatRel (chatSections loc raws groups), ?_⟩
    unfold composeChat
    rw [List.insertionSort, orderedInsert_top _ _ rfl]
    by_cases hs : chatSections loc raws groups = []
    · simp [hs, hnil.mpr hs]
    · have hr : List.insertionSort chatRel (chatSections loc raws groups) ≠ [] :=
        fun h => hs (hnil.mp h)
      simp [hs, hr]
  · exact List.sorted_insertionSort chatRel _
  · decide

/-- C1 failing input: an added spell source carrying an explicit casting
location (`system.location.value`) and no identifier flag.  Because the
tagging pass reads the misspelled path `"system.localtion.value"` (line
937), which is never set, the spell is still tagged with the shared
synthetic identifier and counted as an orphan — contradicting the claim
(and spec §4.4 step (2)) that only spells *lacking* an explicit casting
location are tagged. -/
theorem c1_located_spell_tagged_orphan :
    truthy (getProp ⟨"spell", [("system.location.value", "existing-entry")], []⟩
      "system.location.value") = true ∧
    tagAddedItems "SYNTH" [⟨"spell", [("system.location.value", "existing-entry")], []⟩] =
      ([⟨"spell", [("system.location.value", "existing-entry")],
        [("temporary", "true"), ("identifier", "SYNTH")]⟩], true) := by
  decide


/-- `getRules` caching never touches the other accumulators. -/
theorem getRulesSt_snd (ir : String → List RuleElement) (st : ProcessState) (id : String) :
    ((getRulesSt ir st id).2).addedItems = st.addedItems ∧
    ((getRulesSt ir st id).2).deletedItems = st.deletedItems ∧
    ((getRulesSt ir st id).2).rawMessages = st.rawMessages := by
  unfold getRulesSt
  split <;> exact ⟨rfl, rfl, rfl⟩

/-- Every helper call only ever appends to the add / delete / raw-message
accumulators. -/
theorem applyCmd_mono (ir : String → List RuleElement) (st : ProcessState) (c : EffectCmd) :
    (∀ x ∈ st.addedItems, x ∈ (applyCmd ir st c).addedItems) ∧
    (∀ x ∈ st.deletedItems, x ∈ (applyCmd ir st c).deletedItems) ∧
    (∀ x ∈ st.rawMessages, x ∈ (applyCmd ir st c).rawMessages) := by
  cases c <;>
    simp only [applyCmd, (getRulesSt_snd ir st _).1, (getRulesSt_snd ir st _).2.1,
      (getRulesSt_snd ir st _).2.2, List.mem_append] <;>
    exact ⟨fun x hx => by simp [hx], fun x hx => by simp [hx], fun x hx => by simp [hx]⟩

/-- Monotonicity through a whole callback's effect calls. -/
theorem foldCmds_mono (ir : String → List RuleElement) (cmds : List EffectCmd) :
    ∀ st : ProcessState,
    (∀ x ∈ st.addedItems, x ∈ (cmds.foldl (applyCmd ir) st).addedItems) ∧
    (∀ x ∈ st.deletedItems, x ∈ (cmds.foldl (applyCmd ir) st).deletedItems) ∧
    (∀ x ∈ st.rawMessages, x ∈ (cmds.foldl (applyCmd ir) st).rawMessages) := by
  induction cmds with
  | nil => exact fun st => ⟨fun x hx => hx, fun x hx => hx, fun x hx => hx⟩
  | cons c rest ih =>
      intro st
      refine ⟨fun x hx => ?_, fun x hx => ?_, fun x hx => ?_⟩
      · exact (ih (applyCmd ir st c)).1 x ((applyCmd_mono ir st c).1 x hx)
      · exact (ih (applyCmd ir st c)).2.1 x ((applyCmd_mono ir st c).2.1 x hx)
      · exact (ih (applyCmd ir st c)).2.2 x ((applyCmd_mono ir st c).2.2 x hx)

/-- Each effect call of a callback lands in the shared accumulators. -/
theorem foldCmds_contains (ir : String → List RuleElement) (cmds : List EffectCmd) :
    ∀ st : ProcessState,
    (∀ src, EffectCmd.addItem src ∈ cmds →
      src ∈ (cmds.foldl (applyCmd ir) st).addedItems) ∧
    (∀ id, EffectCmd.deleteItem id ∈ cmds →
      id ∈ (cmds.foldl (applyCmd ir) st).deletedItems) ∧
    (∀ m o, EffectCmd.addRaw m o ∈ cmds →
      (m, o) ∈ (cmds.foldl (applyCmd ir) st).rawMessages) := by
  induction cmds with
  | nil => intro st; refine ⟨?_, ?_, ?_⟩ <;> intros <;> simp_all
  | cons c rest ih =>
      intro st
      refine ⟨fun src hsrc => ?_, fun id hid => ?_, fun m o hmo => ?_⟩
      · rcases List.mem_cons.mp hsrc with h | h
        · subst h
          exact (foldCmds_mono ir rest _).1 src (by simp [applyCmd])
        · exact (ih _).1 src h
      · rcases List.mem_cons.mp hid with h | h
        · subst h
          exact (foldCmds_mono ir rest _).2.1 id (by simp [applyCmd])
        · exact (ih _).2.1 id h
      · rcases List.mem_cons.mp hmo with h | h
        · subst h
          exact (foldCmds_mono ir rest _).2.2 (m, o) (by simp [applyCmd])
        · exact (ih _).2.2 m o h

/-- Accumulators only grow across the per-daily pass. -/
theorem runFold_mono (procOf : String → ProcessFn) (ir : String → List RuleElement)
    (collected : List (String × List (String × DailyRowData))) :
    ∀ acc : ProcessState × List String,
    (∀ x ∈ acc.1.addedItems,
      x ∈ (collected.foldl (runStep procOf ir) acc).1.addedItems) ∧
    (∀ x ∈ acc.1.deletedItems,
      x ∈ (collected.foldl (runStep procOf ir) acc).1.deletedItems) ∧
    (∀ x ∈ acc.1.rawMessages,
      x ∈ (collected.foldl (runStep procOf ir) acc).1.rawMessages) ∧
    (∀ k ∈ acc.2, k ∈ (collected.foldl (runStep procOf ir) acc).2) := by
  induction collected with
  | nil => exact fun acc => ⟨fun x hx => hx, fun x hx => hx, fun x hx => hx, fun k hk => hk⟩
  | cons d rest ih =>
      intro acc
      have hstep :
          (∀ x ∈ acc.1.addedItems, x ∈ (runStep procOf ir acc d).1.addedItems) ∧
          (∀ x ∈ acc.1.deletedItems, x ∈ (runStep procOf ir acc d).1.deletedItems) ∧
          (∀ x ∈ acc.1.rawMessages, x ∈ (runStep procOf ir acc d).1.rawMessages) ∧
          (∀ k ∈ acc.2, k ∈ (runStep procOf ir acc d).2) := by
        unfold runStep
        split
        · exact ⟨(foldCmds_mono ir _ acc.1).1, (foldCmds_mono ir _ acc.1).2.1,
            (foldCmds_mono ir _ acc.1).2.2, fun k hk => hk⟩
        · exact ⟨fun x hx => hx, fun x hx => hx, fun x hx => hx,
            fun k hk => List.mem_append_left _ hk⟩
      refine ⟨fun x hx => ?_, fun x hx => ?_, fun x hx => ?_, fun k hk => ?_⟩
      · exact (ih _).1 x (hstep.1 x hx)
      · exact (ih _).2.1 x (hstep.2.1 x hx)
      · exact (ih _).2.2.1 x (hstep.2.2.1 x hx)
      · exact (ih _).2.2.2 k (hstep.2.2.2 k hk)



/-- Per-daily isolation: an ok daily's effects all land in the final
state, a thrown daily's key is logged. -/
theorem runFold_spec (procOf : String → ProcessFn) (ir : String → List RuleElement)
    (collected : List (String × List (String × DailyRowData))) :
    ∀ acc : ProcessState × List String,
    (∀ d ∈ collected, ∀ cmds, procOf d.1 d.2 = .ok cmds →
      (∀ src, EffectCmd.addItem src ∈ cmds →
        src ∈ (collected.foldl (runStep procOf ir) acc).1.addedItems) ∧
      (∀ id, EffectCmd.deleteItem id ∈ cmds →
        id ∈ (collected.foldl (runStep procOf ir) acc).1.deletedItems) ∧
      (∀ m o, EffectCmd.addRaw m o ∈ cmds →
        (m, o) ∈ (collected.foldl (runStep procOf ir) acc).1.rawMessages)) ∧
    (∀ d ∈ collected, ∀ e, procOf d.1 d.2 = .error e →
      d.1 ∈ (collected.foldl (runStep procOf ir) acc).2) := by
  induction collected with
  | nil =>
      intro acc
      refine ⟨?_, ?_⟩ <;> intros d hd <;> simp at hd
  | cons d0 rest ih =>
      intro acc
      constructor
      · rintro d hd cmds hok
        rcases List.mem_cons.mp hd with h | h
        · subst h
          have hstep : (runStep procOf ir acc d).1 = cmds.foldl (applyCmd ir) acc.1 := by
            unfold runStep
            rw [hok]
          refine ⟨fun src hsrc => ?_, fun id hid => ?_, fun m o hmo => ?_⟩
          · refine (runFold_mono procOf ir rest _).1 src ?_
            rw [hstep]
            exact (foldCmds_contains ir cmds acc.1).1 src hsrc
          · refine (runFold_mono procOf ir rest _).2.1 id ?_
            rw [hstep]
            exact (foldCmds_contains ir cmds acc.1).2.1 id hid
          · refine (runFold_mono procOf ir rest _).2.2.1 (m, o) ?_
            rw [hstep]
            exact (foldCmds_contains ir cmds acc.1).2.2 m o hmo
        · exact (ih (runStep procOf ir acc d0)).1 d h cmds hok
      · rintro d hd e herr
        rcases List.mem_cons.mp hd with h | h
        · subst h
          have hstep : (runStep procOf ir acc d).2 = acc.2 ++ [d.1] := by
            unfold runStep
            rw [herr]
          refine (runFold_mono procOf ir rest _).2.2.2 d.1 ?_
          rw [hstep]
          exact List.mem_append_right _ (List.mem_singleton.mpr rfl)
        · exact (ih (runStep procOf ir acc d0)).2 d h e herr



/-- C2: a throwing `process` callback is logged under its daily's key and
isolated: every other daily's added items, deletions and raw messages
still reach the shared state, the error log is exactly the per-key log,
deletions still reach the batch delete call, and the final commit (flag
update, chat summary) is issued regardless. -/
theorem c2_process_errors_isolated (ctx : AcceptContext) (els : List RowElement) :
    (∀ d ∈ (collectRows ctx.pick els).1, ∀ cmds, ctx.procOf d.1 d.2 = .ok cmds →
      (∀ src, EffectCmd.addItem src ∈ cmds → src ∈
        (runCallbacks ctx.procOf ctx.itemRules (collectRows ctx.pick els).1).1.addedItems) ∧
      (∀ id, EffectCmd.deleteItem id ∈ cmds → id ∈
        (runCallbacks ctx.procOf ctx.itemRules (collectRows ctx.pick els).1).1.deletedItems) ∧
      (∀ m o, EffectCmd.addRaw m o ∈ cmds → (m, o) ∈
        (runCallbacks ctx.procOf ctx.itemRules (collectRows ctx.pick els).1).1.rawMessages)) ∧
    (∀ d ∈ (collectRows ctx.pick els).1, ∀ e, ctx.procOf d.1 d.2 = .error e →
      d.1 ∈ (runCallbacks ctx.procOf ctx.itemRules (collectRows ctx.pick els).1).2) ∧
    (processDailies ctx els).2 =
      (runCallbacks ctx.procOf ctx.itemRules (collectRows ctx.pick els).1).2 ∧
    (∀ id, id ∈
        (runCallbacks ctx.procOf ctx.itemRules (collectRows ctx.pick els).1).1.deletedItems →
      StoreCall.deleteItemsCall
        (runCallbacks ctx.procOf ctx.itemRules (collectRows ctx.pick els).1).1.deletedItems ∈
        (processDailies ctx els).1) ∧
    (∃ p, StoreCall.updateActorFlags p ∈ (processDailies ctx els).1) ∧
    (∃ s, StoreCall.createChatMessage s ∈ (processDailies ctx els).1) := by
  refine ⟨?_, ?_, rfl, ?_, ?_, ?_⟩
  · exact (runFold_spec ctx.procOf ctx.itemRules (collectRows ctx.pick els).1 _).1
  · exact (runFold_spec ctx.procOf ctx.itemRules (collectRows ctx.pick els).1 _).2
  · intro id hid
    have hne : (runCallbacks ctx.procOf ctx.itemRules
        (collectRows ctx.pick els).1).1.deletedItems ≠ [] := List.ne_nil_of_mem hid
    simp only [processDailies]
    refine List.mem_append_left _ (List.mem_append_right _ ?_)
    rw [if_pos hne]
    simp
  · exact ⟨_, by
      simp only [processDailies]
      exact List.mem_append_right _ (List.mem_cons_self _ _)⟩
  · exact ⟨_, by
      simp only [processDailies]
      exact List.mem_append_right _ (List.mem_cons_of_mem _ (List.mem_cons_self _ _))⟩



/-- C2 witness: one ok daily and one throwing daily; the ok daily's item
is collected and the throwing daily's key is logged. -/
theorem c2_witness :
    (⟨"feat", [], []⟩ : ItemSource) ∈
      (runCallbacks
        (AcceptContext.procOf ⟨fun _ => "x",
          fun k => if k = "good" then
              (fun _ => .ok [.addItem ⟨"feat", [], []⟩, .deleteItem "gone", .addRaw "hello" 2])
            else (fun _ => .error "boom"),
          fun _ => [], "ID", none, none, id, id⟩)
        (fun _ => [])
        (collectRows (fun _ => "x")
          [⟨"select", "good", "r1", true, false, "", false, "a", ""⟩,
           ⟨"select", "bad", "r2", true, false, "", false, "b", ""⟩]).1).1.addedItems ∧
    "bad" ∈
      (runCallbacks
        (AcceptContext.procOf ⟨fun _ => "x",
          fun k => if k = "good" then
              (fun _ => .ok [.addItem ⟨"feat", [], []⟩, .deleteItem "gone", .addRaw "hello" 2])
            else (fun _ => .error "boom"),
          fun _ => [], "ID", none, none, id, id⟩)
        (fun _ => [])
        (collectRows (fun _ => "x")
          [⟨"select", "good", "r1", true, false, "", false, "a", ""⟩,
           ⟨"select", "bad", "r2", true, false, "", false, "b", ""⟩]).1).2 := by
  have h := c2_process_errors_isolated
    ⟨fun _ => "x",
      fun k => if k = "good" then
          (fun _ => .ok [.addItem ⟨"feat", [], []⟩, .deleteItem "gone", .addRaw "hello" 2])
        else (fun _ => .error "boom"),
      fun _ => [], "ID", none, none, id, id⟩
    [⟨"select", "good", "r1", true, false, "", false, "a", ""⟩,
     ⟨"select", "bad", "r2", true, false, "", false, "b", ""⟩]
  exact ⟨(h.1 ("good", [("r1", .string "a")]) (by decide) _ rfl).1 _ (List.mem_cons_self _ _),
    h.2.1 ("bad", [("r2", .string "b")]) (by decide) "boom" rfl⟩

/-- Looking up the upserted key finds the new value. -/
theorem find?_upsert_self {α : Type} (l : List (String × α)) (k : String) (v : α) :
    (upsert l k v).find? (fun e => e.1 = k) = some (k, v) := by
  induction l with
  | nil => simp [upsert]
  | cons kv rest ih =>
      by_cases h : kv.1 = k
      · simp [upsert, h]
      · simp [upsert, h, List.find?, ih]

/-- Upserting one key leaves every other key's lookup unchanged. -/
theorem find?_upsert_ne {α : Type} (l : List (String × α)) (k : String) (v : α)
    (r : String) (h : k ≠ r) :
    (upsert l k v).find? (fun e => e.1 = r) = l.find? (fun e => e.1 = r) := by
  induction l with
  | nil => simp [upsert, List.find?, h]
  | cons kv rest ih =>
      obtain ⟨k1, v1⟩ := kv
      by_cases hk : k1 = k
      · subst hk
        simp [upsert, List.find?, h, Ne.symm h]
      · by_cases hr : k1 = r
        · subst hr
          simp [upsert, List.find?, hk]
        · simp [upsert, hk, List.find?, hr, ih]

/-- A non-matching daily entry is transparent to row-value lookup. -/
theorem lookupRowValue_cons_ne (e1 : String) (e2 : List (String × DailyRowData))
    (L : List (String × List (String × DailyRowData))) (d r : String)
    (h : ¬e1 = d) :
    lookupRowValue ((e1, e2) :: L) d r = lookupRowValue L d r := by
  simp [lookupRowValue, List.find?, h]

/-- `addDailyRow` writes exactly the one `(daily, row)` cell. -/
theorem lookupRowValue_addDailyRow
    (rv : List (String × List (String × DailyRowData))) (k slug : String)
    (v : DailyRowData) (d r : String) :
    lookupRowValue (addDailyRow rv k slug v) d r =
      if d = k ∧ r = slug then some v else lookupRowValue rv d r := by
  induction rv with
  | nil =>
      by_cases hd : d = k
      · subst hd
        by_cases hr : r = slug
        · subst hr
          simp [addDailyRow, lookupRowValue, List.find?]
        · simp [addDailyRow, lookupRowValue, List.find?, hr, Ne.symm hr]
      · simp [addDailyRow, lookupRowValue, List.find?, hd, Ne.symm hd]
  | cons e rest ih =>
      obtain ⟨e1, e2⟩ := e
      by_cases hek : e1 = k
      · subst hek
        by_cases hd : d = e1
        · subst hd
          by_cases hr : r = slug
          · subst hr
            simp [addDailyRow, lookupRowValue, List.find?, find?_upsert_self]
          · simp [addDailyRow, lookupRowValue, List.find?, hr,
              find?_upsert_ne e2 slug v r (fun hh => hr hh.symm)]
        · simp [addDailyRow, lookupRowValue, List.find?, hd, Ne.symm hd]
      · by_cases hed : e1 = d
        · subst hed
          simp [addDailyRow, hek, lookupRowValue, List.find?,
            show ¬(e1 = k) from hek]
        · have h1 : addDailyRow ((e1, e2) :: rest) k slug v =
              (e1, e2) :: addDailyRow rest k slug v := by
            simp [addDailyRow, hek]
          rw [h1, lookupRowValue_cons_ne e1 e2 (addDailyRow rest k slug v) d r hed,
            lookupRowValue_cons_ne e1 e2 rest d r hed, ih]

/-- The collection loop extracts a value exactly for the drop / combo /
select / input / random element types — alert and notify fall through. -/
theorem rowValueOf_isSome (pick : RowElement → String) (el : RowElement) :
    (rowValueOf pick el).isSome = true ↔
      (el.dsType = "drop" ∨ el.dsType = "combo" ∨ el.dsType = "select" ∨
        el.dsType = "input" ∨ el.dsType = "random") := by
  unfold rowValueOf
  split_ifs with h1 h2 h3 h4 <;> simp_all <;> tauto

/-- A cell of the collected `flags` accumulator is occupied iff some
element with that `(daily, row)` is of a collected type and saved. -/
theorem collect_lookup (pick : RowElement → String) (els : List RowElement)
    (d r : String) :
    ∀ acc,
    (lookupRowValue (els.foldl (collectStep pick) acc).2 d r ≠ none) ↔
      (lookupRowValue acc.2 d r ≠ none ∨
        ∃ el ∈ els, el.daily = d ∧ el.row = r ∧ el.save = true ∧
          (rowValueOf pick el).isSome = true) := by
  induction els with
  | nil => intro acc; simp
  | cons el rest ih =>
      intro acc
      have hstep : lookupRowValue (collectStep pick acc el).2 d r ≠ none ↔
          (lookupRowValue acc.2 d r ≠ none ∨
            (el.daily = d ∧ el.row = r ∧ el.save = true ∧
              (rowValueOf pick el).isSome = true)) := by
        unfold collectStep
        rcases hv : rowValueOf pick el with _ | v
        · simp [hv]
        · by_cases hs : el.save
          · simp only [hs, if_true]
            rw [lookupRowValue_addDailyRow]
            by_cases hm : d = el.daily ∧ r = el.row
            · obtain ⟨hm1, hm2⟩ := hm
              subst hm1
              subst hm2
              simp [hs, hv]
            · have hnel : ¬(el.daily = d ∧ el.row = r ∧ el.save = true ∧
                  (rowValueOf pick el).isSome = true) := by
                intro hc
                exact hm ⟨hc.1.symm, hc.2.1.symm⟩
              simp [hm, hnel]
              intro h1 h2
              exact absurd ⟨h1.symm, h2.symm⟩ hm
          · have hs' : el.save = false := by simpa using hs
            simp [hs', hv]
      rw [List.foldl_cons, ih (collectStep pick acc el), hstep]
      constructor
      · rintro ((h | h) | h)
        · exact Or.inl h
        · exact Or.inr ⟨el, List.mem_cons_self _ _, h⟩
        · rcases h with ⟨e, he, hrest⟩
          exact Or.inr ⟨e, List.mem_cons_of_mem _ he, hrest⟩
      · rintro (h | ⟨e, he, hrest⟩)
        · exact Or.inl (Or.inl h)
        · rcases List.mem_cons.mp he with rfl | he'
          · exact Or.inl (Or.inr hrest)
          · exact Or.inr ⟨e, he', hrest⟩



/-- C6: the single flag-update payload of an accept carries exactly the
collected saved row values (with `rested := false` and the current
schema); a `(daily, row)` cell is persisted iff some element with that
address has `save = true` and a collected type — so rows with
`save = false`, alert rows and notify rows contribute no persisted value —
and rendering an alert row forces its dataset save flag off. -/
theorem c6_only_saved_rows_persist (ctx : AcceptContext) (els : List RowElement) :
    (flagPayloads (processDailies ctx els).1).map
        (fun p => (p.rowValues, p.rested, p.schema)) =
      [((collectRows ctx.pick els).2, false, ACTOR_DAILY_SCHEMA)] ∧
    (∀ d r, lookupRowValue (collectRows ctx.pick els).2 d r ≠ none ↔
      ∃ el ∈ els, el.daily = d ∧ el.row = r ∧ el.save = true ∧
        (el.dsType = "drop" ∨ el.dsType = "combo" ∨ el.dsType = "select" ∨
          el.dsType = "input" ∨ el.dsType = "random")) ∧
    (∀ (loc : String → String) (sf : String → String → Option DailyRowData)
      (dk : String) (row : RowDef), row.type = "alert" →
      (buildRowTemplate loc sf dk row).map RowTemplate.dsSave ≠ some true) := by
  refine ⟨?_, ?_, ?_⟩
  · simp only [processDailies, flagPayloads]
    split_ifs <;> simp
  · intro d r
    have h := collect_lookup ctx.pick els d r ([], [])
    rw [show (collectRows ctx.pick els).2 = (els.foldl (collectStep ctx.pick) ([], [])).2
      from rfl, h]
    simp only [lookupRowValue, List.find?]
    constructor
    · rintro (h' | ⟨el, hmem, h1, h2, h3, h4⟩)
      · simp at h'
      · exact ⟨el, hmem, h1, h2, h3, (rowValueOf_isSome ctx.pick el).mp h4⟩
    · rintro ⟨el, hmem, h1, h2, h3, h4⟩
      exact Or.inr ⟨el, hmem, h1, h2, h3, (rowValueOf_isSome ctx.pick el).mpr h4⟩
  · intro loc sf dk row htype
    simp [buildRowTemplate, htype]



/-- C6 witness: of a saved select row, an unsaved select row, an alert and
a notify row, only the saved select row's cell is persisted. -/
theorem c6_witness :
    lookupRowValue (collectRows (fun _ => "x")
      [⟨"select", "d", "r1", true, false, "", false, "a", ""⟩,
       ⟨"select", "d", "r2", false, false, "", false, "a", ""⟩,
       ⟨"alert", "d", "r3", false, false, "", false, "msg", ""⟩,
       ⟨"notify", "d", "r4", true, false, "", false, "n", ""⟩]).2 "d" "r1" ≠ none ∧
    lookupRowValue (collectRows (fun _ => "x")
      [⟨"select", "d", "r1", true, false, "", false, "a", ""⟩,
       ⟨"select", "d", "r2", false, false, "", false, "a", ""⟩,
       ⟨"alert", "d", "r3", false, false, "", false, "msg", ""⟩,
       ⟨"notify", "d", "r4", true, false, "", false, "n", ""⟩]).2 "d" "r2" = none ∧
    lookupRowValue (collectRows (fun _ => "x")
      [⟨"select", "d", "r1", true, false, "", false, "a", ""⟩,
       ⟨"select", "d", "r2", false, false, "", false, "a", ""⟩,
       ⟨"alert", "d", "r3", false, false, "", false, "msg", ""⟩,
       ⟨"notify", "d", "r4", true, false, "", false, "n", ""⟩]).2 "d" "r3" = none ∧
    lookupRowValue (collectRows (fun _ => "x")
      [⟨"select", "d", "r1", true, false, "", false, "a", ""⟩,
       ⟨"select", "d", "r2", false, false, "", false, "a", ""⟩,
       ⟨"alert", "d", "r3", false, false, "", false, "msg", ""⟩,
       ⟨"notify", "d", "r4", true, false, "", false, "n", ""⟩]).2 "d" "r4" = none ∧
    (buildRowTemplate id (fun _ _ => none) "d"
      ⟨"r3", "alert", none, none, none, false, none, [], none, "msg", none, "feat"⟩).map
      RowTemplate.dsSave ≠ some true := by
  refine ⟨?_, by decide, by decide, by decide, ?_⟩
  · exact ((c6_only_saved_rows_persist
      ⟨fun _ => "x", fun _ _ => Except.ok [], fun _ => [], "ID", none, none, id, id⟩
      [⟨"select", "d", "r1", true, false, "", false, "a", ""⟩,
       ⟨"select", "d", "r2", false, false, "", false, "a", ""⟩,
       ⟨"alert", "d", "r3", false, false, "", false, "msg", ""⟩,
       ⟨"notify", "d", "r4", true, false, "", false, "n", ""⟩]).2.1 "d" "r1").mpr
      ⟨⟨"select", "d", "r1", true, false, "", false, "a", ""⟩, by decide, rfl, rfl, rfl,
        Or.inr (Or.inr (Or.inl rfl))⟩
  · exact (c6_only_saved_rows_persist
      ⟨fun _ => "x", fun _ _ => Except.ok [], fun _ => [], "ID", none, none, id, id⟩
      []).2.2 id (fun _ _ => none) "d"
      ⟨"r3", "alert", none, none, none, false, none, [], none, "msg", none, "feat"⟩ rfl

/-- The upward probe stops where the conflict test fails. -/
theorem probeUpGo_not (conflict : Nat → Bool) (fuel i : Nat)
    (h : conflict i = false) : probeUpGo conflict fuel i = i := by
  cases fuel with
  | zero => rfl
  | succ n => simp [probeUpGo, h]

/-- The upward probe moves at most `fuel` steps. -/
theorem probeUpGo_le (conflict : Nat → Bool) :
    ∀ fuel i, probeUpGo conflict fuel i ≤ i + fuel := by
  intro fuel
  induction fuel with
  | zero => intro i; simp [probeUpGo]
  | succ n ih =>
      intro i
      by_cases h : conflict i = true
      · simp only [probeUpGo, h, if_true]
        have := ih (i + 1)
        omega
      · have h' : conflict i = false := by simpa using h
        simp [probeUpGo, h']

/-- If some reachable index is conflict-free, the upward probe ends on a
conflict-free index. -/
theorem probeUpGo_finds (conflict : Nat → Bool) :
    ∀ fuel i, (∃ k, i ≤ k ∧ k ≤ i + fuel ∧ conflict k = false) →
      conflict (probeUpGo conflict fuel i) = false := by
  intro fuel
  induction fuel with
  | zero =>
      rintro i ⟨k, h1, h2, h3⟩
      have hk : k = i := by omega
      subst hk
      simpa [probeUpGo] using h3
  | succ n ih =>
      rintro i ⟨k, h1, h2, h3⟩
      by_cases h : conflict i = true
      · simp only [probeUpGo, h, if_true]
        refine ih (i + 1) ⟨k, ?_, by omega, h3⟩
        rcases Nat.eq_or_lt_of_le h1 with rfl | hlt
        · rw [h] at h3
          cases h3
        · omega
      · have h' : conflict i = false := by simpa using h
        simpa [probeUpGo, h'] using h'

/-- The downward probe never moves up. -/
theorem probeDown_le (opts : List SelectOption) (c : List String) :
    ∀ i, probeDown opts c i ≤ i := by
  intro i
  induction i with
  | zero => exact Nat.le_refl 0
  | succ n ih =>
      unfold probeDown
      split
      · exact Nat.le_succ_of_le ih
      · exact Nat.le_refl _

/-- The downward probe ends conflict-free or at index 0. -/
theorem probeDown_spec (opts : List SelectOption) (c : List String) :
    ∀ i, optionExists opts c (probeDown opts c i) = false ∨ probeDown opts c i = 0 := by
  intro i
  induction i with
  | zero => exact Or.inr rfl
  | succ n ih =>
      by_cases h : optionExists opts c (n + 1) = true
      · simp only [probeDown, h, if_true]
        exact ih
      · have h' : optionExists opts c (n + 1) = false := by simpa using h
        simp [probeDown, h']

/-- The downward probe does not move off a conflict-free index. -/
theorem probeDown_not (opts : List SelectOption) (c : List String) (i : Nat)
    (h : optionExists opts c i = false) : probeDown opts c i = i := by
  cases i with
  | zero => rfl
  | succ n => simp [probeDown, h]

/-- The claimed value of an option is its non-exempt unique-value when that
is nonempty. -/
theorem claimableValue_eq (o : SelectOption) :
    claimableValue o = (nonExemptValue o).bind
      (fun v => if v = "" then none else some v) := by
  unfold claimableValue nonExemptValue
  split_ifs <;> simp_all

/-- `optionExists` is false exactly when the option's claimable value, if
any, is unclaimed. -/
theorem optionExists_eq_false_iff (opts : List SelectOption) (c : List String)
    (k : Nat) :
    optionExists opts c k = false ↔
      ∀ v, (opts[k]?.bind claimableValue) = some v → v ∉ c := by
  unfold optionExists optionUniqueValue claimableValue nonExemptValue
  cases hk : opts[k]? with
  | none => simp
  | some o =>
      simp only [show ∀ (f : SelectOption → Option String), (some o).bind f = f o
        from fun _ => rfl]
      by_cases hskip : o.skipUnique = true
      · simp [hskip]
      · by_cases hempty : o.uniqueData.getD o.value = ""
        · simp [hskip, hempty]
        · simp only [hskip, hempty, Bool.false_eq_true, if_false, List.elem_iff]
          constructor
          · rintro hcon v hv hmem
            cases hv
            rw [show c.contains (o.uniqueData.getD o.value) = true from
              (List.elem_iff).mpr hmem] at hcon
            cases hcon
          · intro hall
            by_cases hmem : o.uniqueData.getD o.value ∈ c
            · exact absurd hmem (hall _ (by simp [hskip, hempty]))
            · simpa [List.elem_iff] using hmem

theorem selClaimable_mk (el : SelectElement) (r : Nat) :
    selClaimable { el with selectedIndex := r } =
      el.options[r]?.bind claimableValue := rfl

theorem eta_selectedIndex (el : SelectElement) :
    { el with selectedIndex := el.selectedIndex } = el := by
  cases el
  rfl

/-- Selected claimable value through the unique-value view. -/
theorem bind_claimable_eq_uv (opts : List SelectOption) (k : Nat) :
    opts[k]?.bind claimableValue =
      (optionUniqueValue opts k).bind (fun v => if v = "" then none else some v) := by
  unfold optionUniqueValue
  cases opts[k]? <;> simp [claimableValue_eq]

/-- Pigeonhole: more distinct claimable values than claimed entries leaves
a conflict-free index. -/
theorem exists_free_index (opts : List SelectOption) (c : List String)
    (hcard : c.length < (opts.filterMap claimableValue).toFinset.card) :
    ∃ k, k < opts.length ∧ optionExists opts c k = false := by
  have hex : ∃ v ∈ opts.filterMap claimableValue, v ∉ c := by
    by_contra hall
    push_neg at hall
    have hsub : (opts.filterMap claimableValue).toFinset ⊆ c.toFinset := by
      intro v hv
      rw [List.mem_toFinset] at hv ⊢
      exact hall v hv
    have h1 := Finset.card_le_card hsub
    have h2 := c.toFinset_card_le
    omega
  rcases hex with ⟨v, hv, hvc⟩
  rcases List.mem_filterMap.mp hv with ⟨o, ho, hov⟩
  rcases List.mem_iff_getElem.mp ho with ⟨k, hk, hko⟩
  refine ⟨k, hk, ?_⟩
  rw [optionExists_eq_false_iff]
  intro w hw
  rw [List.getElem?_eq_getElem hk, hko] at hw
  simp only [show ∀ (f : SelectOption → Option String), (some o).bind f = f o
    from fun _ => rfl, hov] at hw
  cases hw
  exact hvc

/-- A still-conflicting probe result leaves the element and the claimed set
untouched (`continue`). -/
theorem resolveElement_conflict (c : List String) (el : SelectElement)
    (h : optionExists el.options c
      (probeUp el.options c (probeDown el.options c el.selectedIndex)) = true) :
    resolveElement c el = (el, c) := by
  unfold resolveElement
  simp [h]

/-- A conflict-free probe result moves the element there and claims its
non-falsy unique-value. -/
theorem resolveElement_resolved (c : List String) (el : SelectElement)
    (h : optionExists el.options c
      (probeUp el.options c (probeDown el.options c el.selectedIndex)) = false) :
    resolveElement c el =
      ({ el with selectedIndex :=
          probeUp el.options c (probeDown el.options c el.selectedIndex) },
        match optionUniqueValue el.options
          (probeUp el.options c (probeDown el.options c el.selectedIndex)) with
        | some v => if v = "" then c else c ++ [v]
        | none => c) := by
  unfold resolveElement
  simp [h]

/-- The down-then-up probe scans every index, so a conflict-free index
anywhere in bounds makes the probe end conflict-free and in bounds. -/
theorem resolved_free (c : List String) (el : SelectElement)
    (hwf : el.selectedIndex < el.options.length)
    (hfree : ∃ k, k < el.options.length ∧ optionExists el.options c k = false) :
    optionExists el.options c
      (probeUp el.options c (probeDown el.options c el.selectedIndex)) = false ∧
    probeUp el.options c (probeDown el.options c el.selectedIndex) <
      el.options.length := by
  have hdle : probeDown el.options c el.selectedIndex ≤ el.selectedIndex :=
    probeDown_le _ _ _
  have hdlt : probeDown el.options c el.selectedIndex < el.options.length :=
    lt_of_le_of_lt hdle hwf
  have hub := probeUpGo_le (optionExists el.options c)
    (el.options.length - 1 - probeDown el.options c el.selectedIndex)
    (probeDown el.options c el.selectedIndex)
  rcases probeDown_spec el.options c el.selectedIndex with hdone | hzero
  · rw [show probeUp el.options c (probeDown el.options c el.selectedIndex) =
      probeDown el.options c el.selectedIndex from probeUpGo_not _ _ _ hdone]
    exact ⟨hdone, hdlt⟩
  · rcases hfree with ⟨k, hk1, hk2⟩
    have hf := probeUpGo_finds (optionExists el.options c)
      (el.options.length - 1 - probeDown el.options c el.selectedIndex)
      (probeDown el.options c el.selectedIndex) ⟨k, by omega, by omega, hk2⟩
    refine ⟨hf, ?_⟩
    show probeUpGo (optionExists el.options c)
      (el.options.length - 1 - probeDown el.options c el.selectedIndex)
      (probeDown el.options c el.selectedIndex) < el.options.length
    omega

/-- Full description of one element's resolution when a free option
exists: the element moves to a conflict-free index and either claims a
fresh nonempty value or claims nothing. -/
theorem resolveElement_spec (c : List String) (el : SelectElement)
    (hwf : el.selectedIndex < el.options.length)
    (hfree : ∃ k, k < el.options.length ∧ optionExists el.options c k = false) :
    ∃ r, (resolveElement c el).1 = { el with selectedIndex := r } ∧
      ((selClaimable (resolveElement c el).1 = none ∧ (resolveElement c el).2 = c) ∨
       (∃ v, selClaimable (resolveElement c el).1 = some v ∧ v ∉ c ∧
         (resolveElement c el).2 = c ++ [v])) := by
  obtain ⟨hres, hlt⟩ := resolved_free c el hwf hfree
  have hclaim := (optionExists_eq_false_iff el.options c
    (probeUp el.options c (probeDown el.options c el.selectedIndex))).mp hres
  rw [resolveElement_resolved c el hres]
  refine ⟨_, rfl, ?_⟩
  rw [selClaimable_mk, bind_claimable_eq_uv]
  cases huv : optionUniqueValue el.options
      (probeUp el.options c (probeDown el.options c el.selectedIndex)) with
  | none => exact Or.inl ⟨rfl, rfl⟩
  | some v =>
      by_cases hv : v = ""
      · subst hv
        exact Or.inl ⟨by simp, by simp⟩
      · refine Or.inr ⟨v, by simp [hv], ?_, by simp [hv]⟩
        refine hclaim v ?_
        rw [bind_claimable_eq_uv, huv]
        simp [hv]

/-- Invariant of the first pass: starting from claimed set `c`, with every
element in range and enough distinct claimable values, the pass only
appends to the claimed set, every resolved selection's value is fresh and
ends up claimed, and no two elements end on the same claimable value. -/
theorem resolvePass_spec (els : List SelectElement) : ∀ c : List String,
    (∀ el ∈ els, el.selectedIndex < el.options.length) →
    (∀ el ∈ els, c.length + els.length ≤ distinctClaimable el) →
    (∃ ext, (resolvePass c els).2 = c ++ ext) ∧
    (∀ el' ∈ (resolvePass c els).1, ∀ v, selClaimable el' = some v →
      v ∉ c ∧ v ∈ (resolvePass c els).2) ∧
    List.Pairwise DistinctSel (resolvePass c els).1 := by
  induction els with
  | nil =>
      intro c _ _
      exact ⟨⟨[], by simp [resolvePass]⟩, by simp [resolvePass], by simp [resolvePass]⟩
  | cons el rest ih =>
      intro c hwf hcard
      have hc1 : c.length < distinctClaimable el := by
        have := hcard el (List.mem_cons_self _ _)
        simp only [List.length_cons] at this
        omega
      have hfree := exists_free_index el.options c hc1
      obtain ⟨r, hel1, hcases⟩ := resolveElement_spec c el
        (hwf el (List.mem_cons_self _ _)) hfree
      have hwf' : ∀ e ∈ rest, e.selectedIndex < e.options.length :=
        fun e he => hwf e (List.mem_cons_of_mem _ he)
      have hlen1 : (resolveElement c el).2.length ≤ c.length + 1 := by
        rcases hcases with ⟨_, h2⟩ | ⟨v, _, _, h2⟩
        · rw [h2]
          omega
        · rw [h2]
          simp
      have hcard' : ∀ e ∈ rest,
          (resolveElement c el).2.length + rest.length ≤ distinctClaimable e := by
        intro e he
        have := hcard e (List.mem_cons_of_mem _ he)
        simp only [List.length_cons] at this
        omega
      obtain ⟨⟨ext1, hext1⟩, hS, hPW⟩ := ih (resolveElement c el).2 hwf' hcard'
      have hfst : (resolvePass c (el :: rest)).1 =
          (resolveElement c el).1 :: (resolvePass (resolveElement c el).2 rest).1 := rfl
      have hsnd : (resolvePass c (el :: rest)).2 =
          (resolvePass (resolveElement c el).2 rest).2 := rfl
      refine ⟨?_, ?_, ?_⟩
      · rcases hcases with ⟨_, h2⟩ | ⟨v, _, _, h2⟩
        · exact ⟨ext1, by rw [hsnd, hext1, h2]⟩
        · refine ⟨[v] ++ ext1, ?_⟩
          rw [hsnd, hext1, h2]
          simp
      · intro el' hel' v hv
        rw [hfst] at hel'
        rcases List.mem_cons.mp hel' with rfl | hmem
        · rcases hcases with ⟨hnone, h2⟩ | ⟨w, hsome, hwc, h2⟩
          · rw [hnone] at hv
            cases hv
          · rw [hsome] at hv
            cases hv
            refine ⟨hwc, ?_⟩
            rw [hsnd, hext1, h2]
            simp
        · have hS2 := hS el' hmem v hv
          refine ⟨?_, by rw [hsnd]; exact hS2.2⟩
          intro hvc
          apply hS2.1
          rcases hcases with ⟨_, h2⟩ | ⟨w, _, _, h2⟩
          · rw [h2]
            exact hvc
          · rw [h2]
            exact List.mem_append_left _ hvc
      · rw [hfst]
        refine List.Pairwise.cons ?_ hPW
        intro el' hel'
        rcases hcases with ⟨hnone, _⟩ | ⟨w, hsome, hwc, h2⟩
        · simp [DistinctSel, hnone]
        · simp only [DistinctSel, hsome]
          intro hcontr
          have h3 := hS el' hel' w hcontr
          apply h3.1
          rw [h2]
          simp

/-- What the disabled pass does to each option position. -/
theorem setDisabledFrom_getElem (d : List String) (s : Nat) :
    ∀ (l : List SelectOption) (i k : Nat),
      (setDisabledFrom d s i l)[k]? = (l[k]?).map
        (fun o => if i + k = s then o
          else { o with disabled := d.contains (o.uniqueData.getD o.value) }) := by
  intro l
  induction l with
  | nil => intro i k; simp [setDisabledFrom]
  | cons o rest ih =>
      intro i k
      cases k with
      | zero => simp [setDisabledFrom]
      | succ k =>
          simp only [setDisabledFrom, List.getElem?_cons_succ, ih (i + 1) k]
          have harith : i + 1 + k = i + (k + 1) := by omega
          rw [harith]

theorem setDisabledFrom_length (d : List String) (s : Nat) :
    ∀ (l : List SelectOption) (i : Nat),
      (setDisabledFrom d s i l).length = l.length := by
  intro l
  induction l with
  | nil => intro i; rfl
  | cons o rest ih => intro i; simp [setDisabledFrom, ih]

/-- The disabled pass does not change any option's unique-value. -/
theorem uv_applyDisabled (d : List String) (el : SelectElement) (k : Nat) :
    optionUniqueValue (applyDisabled d el).options k =
      optionUniqueValue el.options k := by
  show optionUniqueValue (setDisabledFrom d el.selectedIndex 0 el.options) k = _
  unfold optionUniqueValue
  rw [setDisabledFrom_getElem]
  cases el.options[k]? with
  | none => rfl
  | some o =>
      show nonExemptValue (if 0 + k = el.selectedIndex then o else _) =
        nonExemptValue o
      split <;> rfl

theorem optionExists_applyDisabled (c d : List String) (el : SelectElement)
    (k : Nat) :
    optionExists (applyDisabled d el).options c k = optionExists el.options c k := by
  unfold optionExists
  rw [uv_applyDisabled]

theorem length_applyDisabled (d : List String) (el : SelectElement) :
    (applyDisabled d el).options.length = el.options.length :=
  setDisabledFrom_length d el.selectedIndex el.options 0

/-- The disabled pass does not change what the element is selected on. -/
theorem selClaimable_applyDisabled (d : List String) (el : SelectElement) :
    selClaimable (applyDisabled d el) = selClaimable el := by
  show (applyDisabled d el).options[(applyDisabled d el).selectedIndex]?.bind
      claimableValue = _
  rw [show (applyDisabled d el).selectedIndex = el.selectedIndex from rfl,
    bind_claimable_eq_uv,
    show optionUniqueValue (applyDisabled d el).options el.selectedIndex =
      optionUniqueValue el.options el.selectedIndex from uv_applyDisabled d el _,
    ← bind_claimable_eq_uv]
  rfl

/-- C4 (amended): in a unique group where every element is in range and
offers at least as many distinct *nonempty* non-exempt unique-values as
there are elements, the resolver never leaves two elements selected on
options carrying the same nonempty non-exempt unique-value.  (Options with
an empty unique-value behave like skip-unique ones: they are never claimed
and may be shared — see the counterexample for the claim as stated.) -/
theorem c4_unique_resolution (els : List SelectElement)
    (hwf : WFGroup els)
    (hcard : ∀ el ∈ els, els.length ≤ distinctClaimable el) :
    List.Pairwise DistinctSel (onUniqueChange els) := by
  have hspec := resolvePass_spec els [] hwf (by
    intro el hel
    simpa using hcard el hel)
  unfold onUniqueChange
  refine List.Pairwise.map _ ?_ hspec.2.2
  intro a b hab
  unfold DistinctSel at hab ⊢
  rw [selClaimable_applyDisabled, selClaimable_applyDisabled]
  exact hab

/-- C4 counterexample to the claim as stated: two elements whose three
options carry the distinct non-exempt unique-values `""`, `"a"`, `"b"`
(so `N = 2 ≤ 3 = M`), both starting on the empty-valued option — the
resolver leaves both selected on the same non-exempt unique-value `""`,
because the code's falsy-check never claims or conflicts on the empty
string. -/
theorem c4_counterexample :
    WFGroup [(⟨[⟨"", none, false, false⟩, ⟨"a", none, false, false⟩,
        ⟨"b", none, false, false⟩], 0⟩ : SelectElement),
      ⟨[⟨"", none, false, false⟩, ⟨"a", none, false, false⟩,
        ⟨"b", none, false, false⟩], 0⟩] ∧
    2 ≤ distinctNonExempt ⟨[⟨"", none, false, false⟩, ⟨"a", none, false, false⟩,
        ⟨"b", none, false, false⟩], 0⟩ ∧
    (onUniqueChange [(⟨[⟨"", none, false, false⟩, ⟨"a", none, false, false⟩,
        ⟨"b", none, false, false⟩], 0⟩ : SelectElement),
      ⟨[⟨"", none, false, false⟩, ⟨"a", none, false, false⟩,
        ⟨"b", none, false, false⟩], 0⟩]).map selNonExempt = [some "", some ""] :=
  ⟨by decide, by decide, by decide⟩

/-- C4 witness: two conflicting elements over values `a`, `b` resolve to
distinct claimable values. -/
theorem c4_witness :
    List.Pairwise DistinctSel (onUniqueChange
      [(⟨[⟨"a", none, false, false⟩, ⟨"b", none, false, false⟩], 0⟩ : SelectElement),
       ⟨[⟨"a", none, false, false⟩, ⟨"b", none, false, false⟩], 0⟩]) :=
  c4_unique_resolution _ (by decide) (by decide)

/-- An element already sitting on a conflict-free index resolves in place,
claiming its non-falsy unique-value. -/
theorem resolveElement_atFixed (c : List String) (el : SelectElement)
    (h : optionExists el.options c el.selectedIndex = false) :
    resolveElement c el =
      (el, match optionUniqueValue el.options el.selectedIndex with
        | some v => if v = "" then c else c ++ [v]
        | none => c) := by
  have hd : probeDown el.options c el.selectedIndex = el.selectedIndex :=
    probeDown_not _ _ _ h
  have hu : probeUp el.options c el.selectedIndex = el.selectedIndex :=
    probeUpGo_not _ _ _ h
  have hres := resolveElement_resolved c el (by rw [hd, hu]; exact h)
  rw [hd, hu] at hres
  rw [hres]

/-- Resolving an element a second time against the same claimed set
changes nothing. -/
theorem resolveElement_rerun (c : List String) (el : SelectElement) :
    resolveElement c (resolveElement c el).1 = resolveElement c el := by
  by_cases h : optionExists el.options c
      (probeUp el.options c (probeDown el.options c el.selectedIndex)) = true
  · rw [resolveElement_conflict c el h]
    exact resolveElement_conflict c el h
  · have h' : optionExists el.options c
        (probeUp el.options c (probeDown el.options c el.selectedIndex)) = false := by
      simpa using h
    rw [resolveElement_resolved c el h']
    exact resolveElement_atFixed c _ h'

/-- The down-probe ignores disabled flags. -/
theorem probeDown_ap (c d : List String) (el : SelectElement) :
    ∀ i, probeDown (applyDisabled d el).options c i = probeDown el.options c i := by
  intro i
  induction i with
  | zero => rfl
  | succ n ih => simp only [probeDown, optionExists_applyDisabled, ih]

/-- The up-probe ignores disabled flags. -/
theorem probeUp_ap (c d : List String) (el : SelectElement) (i : Nat) :
    probeUp (applyDisabled d el).options c i = probeUp el.options c i := by
  unfold probeUp
  rw [length_applyDisabled,
    show (optionExists (applyDisabled d el).options c) = (optionExists el.options c)
      from funext (optionExists_applyDisabled c d el)]

/-- Resolution commutes with the disabled pass: recomputed disabled flags
never change where an element resolves to or what it claims. -/
theorem resolveElement_ap (c d : List String) (el : SelectElement) :
    resolveElement c (applyDisabled d el) =
      ({ applyDisabled d el with
          selectedIndex := (resolveElement c el).1.selectedIndex },
        (resolveElement c el).2) := by
  have hcong : probeUp (applyDisabled d el).options c
      (probeDown (applyDisabled d el).options c (applyDisabled d el).selectedIndex) =
      probeUp el.options c (probeDown el.options c el.selectedIndex) := by
    rw [show (applyDisabled d el).selectedIndex = el.selectedIndex from rfl,
      probeDown_ap, probeUp_ap]
  by_cases h : optionExists el.options c
      (probeUp el.options c (probeDown el.options c el.selectedIndex)) = true
  · have h2 : optionExists (applyDisabled d el).options c
        (probeUp (applyDisabled d el).options c
          (probeDown (applyDisabled d el).options c
            (applyDisabled d el).selectedIndex)) = true := by
      rw [hcong, optionExists_applyDisabled]
      exact h
    rw [resolveElement_conflict _ _ h2, resolveElement_conflict _ _ h]
    rfl
  · have h' : optionExists el.options c
        (probeUp el.options c (probeDown el.options c el.selectedIndex)) = false := by
      simpa using h
    have h2 : optionExists (applyDisabled d el).options c
        (probeUp (applyDisabled d el).options c
          (probeDown (applyDisabled d el).options c
            (applyDisabled d el).selectedIndex)) = false := by
      rw [hcong, optionExists_applyDisabled]
      exact h'
    rw [resolveElement_resolved _ _ h2, resolveElement_resolved _ _ h', hcong,
      uv_applyDisabled]

/-- Re-resolving an already-resolved element after the disabled pass
leaves it untouched and re-claims the same value. -/
theorem resolveElement_rerun_ap (c d : List String) (el : SelectElement) :
    resolveElement c (applyDisabled d (resolveElement c el).1) =
      (applyDisabled d (resolveElement c el).1, (resolveElement c el).2) := by
  rw [resolveElement_ap c d (resolveElement c el).1, resolveElement_rerun c el]
  rfl

/-- Re-running the first pass on its own output (after the disabled pass)
reproduces that output and the same claimed set. -/
theorem resolvePass_rerun_ap (d : List String) :
    ∀ (els : List SelectElement) (c : List String),
      resolvePass c (((resolvePass c els).1).map (applyDisabled d)) =
        (((resolvePass c els).1).map (applyDisabled d), (resolvePass c els).2) := by
  intro els
  induction els with
  | nil => intro c; rfl
  | cons el rest ih =>
      intro c
      simp only [resolvePass, List.map_cons, resolveElement_rerun_ap, ih]

/-- The disabled inner loop is idempotent. -/
theorem setDisabledFrom_idem (dl : List String) (s : Nat) :
    ∀ (l : List SelectOption) (i : Nat),
      setDisabledFrom dl s i (setDisabledFrom dl s i l) = setDisabledFrom dl s i l := by
  intro l
  induction l with
  | nil => intro i; rfl
  | cons o rest ih =>
      intro i
      by_cases h : i = s
      · simp [setDisabledFrom, h, ih]
      · simp [setDisabledFrom, h, ih]

/-- The disabled pass is idempotent per element. -/
theorem applyDisabled_idem (dl : List String) (el : SelectElement) :
    applyDisabled dl (applyDisabled dl el) = applyDisabled dl el := by
  simp only [applyDisabled, setDisabledFrom_idem]

/-- A conflict-free group whose selections avoid the incoming claimed set
is left untouched by the first pass. -/
theorem resolvePass_fixed :
    ∀ (els : List SelectElement) (c : List String),
      ConflictFree els →
      (∀ el ∈ els, ∀ v, selClaimable el = some v → v ∉ c) →
      (resolvePass c els).1 = els := by
  intro els
  induction els with
  | nil => intro c _ _; rfl
  | cons el rest ih =>
      intro c hcf hfresh
      have hni : optionExists el.options c el.selectedIndex = false := by
        rw [optionExists_eq_false_iff]
        intro v hv
        exact hfresh el (List.mem_cons_self _ _) v hv
      have hres := resolveElement_atFixed c el hni
      have hfst : (resolveElement c el).1 = el := by rw [hres]
      have hsnd : (resolveElement c el).2 =
          match optionUniqueValue el.options el.selectedIndex with
          | some v => if v = "" then c else c ++ [v]
          | none => c := by rw [hres]
      have hsc : selClaimable el =
          (optionUniqueValue el.options el.selectedIndex).bind
            (fun v => if v = "" then none else some v) :=
        bind_claimable_eq_uv el.options el.selectedIndex
      have hfresh' : ∀ e ∈ rest, ∀ w, selClaimable e = some w →
          w ∉ (resolveElement c el).2 := by
        intro e he w hw hmem
        rw [hsnd] at hmem
        cases huv : optionUniqueValue el.options el.selectedIndex with
        | none =>
            simp only [huv] at hmem
            exact hfresh e (List.mem_cons_of_mem _ he) w hw hmem
        | some v =>
            have hbind : ∀ (f : String → Option String), (some v).bind f = f v :=
              fun _ => rfl
            simp only [huv] at hmem
            simp only [huv, hbind] at hsc
            by_cases hv : v = ""
            · rw [if_pos hv] at hmem
              exact hfresh e (List.mem_cons_of_mem _ he) w hw hmem
            · rw [if_neg hv] at hmem
              rw [if_neg hv] at hsc
              rcases List.mem_append.mp hmem with h1 | h2
              · exact hfresh e (List.mem_cons_of_mem _ he) w hw h1
              · have hwv : w = v := by simpa using h2
                have hde : DistinctSel el e := (List.pairwise_cons.mp hcf).1 e he
                simp only [DistinctSel, hsc] at hde
                rw [hwv] at hw
                exact hde hw
      have htail := ih (resolveElement c el).2 (List.pairwise_cons.mp hcf).2 hfresh'
      show ((resolveElement c el).1 ::
          (resolvePass (resolveElement c el).2 rest).1) = el :: rest
      rw [hfst, htail]

/-- C5: the uniqueness resolver is idempotent — on a group whose current
selections are already pairwise conflict-free it changes no element's
selected index, and running the whole handler twice yields exactly the
same elements (selected indices and per-option disabled flags) as running
it once. -/
theorem c5_resolver_idempotent (els : List SelectElement) :
    (ConflictFree els →
      (onUniqueChange els).map (fun el => el.selectedIndex) =
        els.map (fun el => el.selectedIndex)) ∧
    onUniqueChange (onUniqueChange els) = onUniqueChange els := by
  constructor
  · intro hcf
    have hfix : (resolvePass [] els).1 = els :=
      resolvePass_fixed els [] hcf
        (fun el _ v _ hmem => absurd hmem (List.not_mem_nil v))
    unfold onUniqueChange
    rw [hfix, List.map_map]
    rfl
  · unfold onUniqueChange
    rw [resolvePass_rerun_ap]
    show (((resolvePass [] els).1.map (applyDisabled ((resolvePass [] els).2))).map
        (applyDisabled ((resolvePass [] els).2))) =
      (resolvePass [] els).1.map (applyDisabled ((resolvePass [] els).2))
    rw [List.map_map]
    exact congrArg (fun f => List.map f (resolvePass [] els).1)
      (funext fun el => applyDisabled_idem _ el)

/-- C5 witness: a conflict-free two-element group keeps both selected
indices, and the handler is idempotent on it. -/
theorem c5_witness :
    ConflictFree
      [(⟨[⟨"a", none, false, false⟩, ⟨"b", none, false, false⟩], 0⟩ : SelectElement),
       ⟨[⟨"a", none, false, false⟩, ⟨"b", none, false, false⟩], 1⟩] ∧
    (onUniqueChange
        [(⟨[⟨"a", none, false, false⟩, ⟨"b", none, false, false⟩], 0⟩ : SelectElement),
         ⟨[⟨"a", none, false, false⟩, ⟨"b", none, false, false⟩], 1⟩]).map
        (fun el => el.selectedIndex) =
      [(⟨[⟨"a", none, false, false⟩, ⟨"b", none, false, false⟩], 0⟩ : SelectElement),
       ⟨[⟨"a", none, false, false⟩, ⟨"b", none, false, false⟩], 1⟩].map
        (fun el => el.selectedIndex) ∧
    onUniqueChange (onUniqueChange
      [(⟨[⟨"a", none, false, false⟩, ⟨"b", none, false, false⟩], 0⟩ : SelectElement),
       ⟨[⟨"a", none, false, false⟩, ⟨"b", none, false, false⟩], 1⟩]) =
    onUniqueChange
      [(⟨[⟨"a", none, false, false⟩, ⟨"b", none, false, false⟩], 0⟩ : SelectElement),
       ⟨[⟨"a", none, false, false⟩, ⟨"b", none, false, false⟩], 1⟩] :=
  ⟨by decide,
    (c5_resolver_idempotent
      [⟨[⟨"a", none, false, false⟩, ⟨"b", none, false, false⟩], 0⟩,
       ⟨[⟨"a", none, false, false⟩, ⟨"b", none, false, false⟩], 1⟩]).1 (by decide),
    (c5_resolver_idempotent
      [⟨[⟨"a", none, false, false⟩, ⟨"b", none, false, false⟩], 0⟩,
       ⟨[⟨"a", none, false, false⟩, ⟨"b", none, false, false⟩], 1⟩]).2⟩

end PF2eDailies
